import Mathlib

/-!
# Verification of the pyjstat JSON-stat codec (src/pyjstat/pyjstat.py)

This file gives a shallow embedding of the JSON-stat codec of pyjstat and
proves (or refutes) the frozen claims about it.

Modelling conventions, justified against the source:

* Python scalars that can appear as category ids and data cells (JSON
  numbers, strings, null) are modelled by the inductive type `Cell`.
  Floating point numbers never occur in the claims; numeric cells are
  modelled as integers, which the codec only carries around and never
  computes with.
* A parsed JSON-stat document (an `OrderedDict` in the source) is modelled
  by the structure `Document`.  The keys `id`/`size` can live at the top
  level (version >= 2.0) or nested under `dimension` (version < 2.0); the
  nested ones are modelled by the fields `dim_id`/`dim_size`.  Keys of the
  `dimension` mapping are modelled as `String`: `to_json_stat` uses
  `to_int(column_name)` as the key, the claims apply the decoder to the
  document produced by `json.dumps`/`json.loads`, and JSON serialization
  renders an integer key as its canonical decimal string -- the composite
  is `json_dim_key`, so a column named `05` is keyed `5` while the `id`
  list keeps `05`.
* Fallible Python code (KeyError, IndexError, ValueError, TypeError,
  RecursionError, the explicit `raise ValueError`) is modelled with
  `Except String`.
* `pandas.DataFrame` values are modelled row-major by `DataFrame`
  (column names plus a list of rows); the source's column accesses are
  translated to positional accesses on the rows.
* The mutual recursion between `get_dim_label` and `get_dim_index` (each
  falls back to the other when `category.label` resp. `category.index` is
  absent) terminates in Python only because at most one fallback fires;
  with both keys absent it exceeds the recursion limit.  It is embedded
  with an explicit fuel argument, instantiated with 1000 (the CPython
  recursion limit) at the entry points; fuel exhaustion models
  `RecursionError`.
-/

set_option maxHeartbeats 1000000

namespace Pyjstat

/-- A Python/JSON scalar as it appears in table cells and dimension
categories: `null`/`None`, an integer, or a string. -/
inductive Cell where
  | null : Cell
  | int : Int → Cell
  | str : String → Cell
  deriving DecidableEq, Repr

/-- Decimal digits to a natural number (most significant first). -/
def digits_to_nat (acc : Nat) : List Char → Nat
  | [] => acc
  | c :: cs => digits_to_nat (acc * 10 + (c.toNat - 48)) cs

/-- The whitespace characters that Python's `int()` strips from an ASCII
string: space, tab, newline, carriage return, vertical tab, form feed. -/
def is_py_space (c : Char) : Bool :=
  c = ' ' || c = '\t' || c = '\n' || c = '\r' || c.toNat = 11 || c.toNat = 12

/-- Strip leading and trailing `int()` whitespace. -/
def strip_py_spaces (cs : List Char) : List Char :=
  ((cs.dropWhile is_py_space).reverse.dropWhile is_py_space).reverse

/-- The tail of Python's integer-literal digit grammar: digits with single
underscores allowed between digits only. -/
def py_digits_rest : List Char → Bool
  | [] => true
  | '_' :: [] => false
  | '_' :: d :: rest => d.isDigit && py_digits_rest rest
  | c :: rest => c.isDigit && py_digits_rest rest

/-- Python's integer-literal digit grammar: at least one digit, single
underscores between digits. -/
def py_digits : List Char → Bool
  | [] => false
  | c :: rest => c.isDigit && py_digits_rest rest

/-- `int(s)` on an ASCII string: strip whitespace, optional single sign,
then digits with medial underscores; the value is the decimal reading of
the digits.  (Python's `int()` additionally accepts non-ASCII decimal
digits and whitespace; names and ids exercising those are outside this
model, and the round-trip theorem below restricts itself to ASCII
strings.) -/
def python_int_of_string (s : String) : Option Int :=
  match strip_py_spaces s.toList with
  | '-' :: rest =>
    if py_digits rest then
      some (-(digits_to_nat 0 (rest.filter (fun c => c ≠ '_')) : Int))
    else none
  | '+' :: rest =>
    if py_digits rest then
      some ((digits_to_nat 0 (rest.filter (fun c => c ≠ '_')) : Int))
    else none
  | rest =>
    if py_digits rest then
      some ((digits_to_nat 0 (rest.filter (fun c => c ≠ '_')) : Int))
    else none

/-- The decimal digits of a natural number, most significant first (the
fuel bounds the recursion depth; `n + 1` digits always suffice). -/
def nat_to_digits (fuel : Nat) (n : Nat) : List Char :=
  match fuel with
  | 0 => []
  | fuel + 1 =>
    if n < 10 then [Char.ofNat (48 + n)]
    else nat_to_digits fuel (n / 10) ++ [Char.ofNat (48 + n % 10)]

/-- `str(i)` for an integer: the canonical decimal rendering, which is
also how `json.dumps` renders an integer mapping key. -/
def int_to_string (i : Int) : String :=
  match i with
  | .ofNat n => String.mk (nat_to_digits (n + 1) n)
  | .negSucc m => String.mk ('-' :: nat_to_digits (m + 2) (m + 1))

/-- `to_int` from the source: `int(variable)` if it parses, the argument
unchanged on `ValueError`.  `int(None)` raises `TypeError`, which the
source does not catch, hence the error case. -/
def to_int (x : Cell) : Except String Cell :=
  match x with
  | .null => .error "TypeError: int() argument must not be None"
  | .int n => .ok (.int n)
  | .str s =>
    match python_int_of_string s with
    | some n => .ok (.int n)
    | none => .ok (.str s)

/-- `to_str` from the source: `str(variable)` if `int(variable)` parses,
the argument unchanged on `ValueError`.  On a string, `str` is the
identity, so the result is always the original string or the decimal
rendering of an integer; we return the resulting string directly.
`int(None)` raises `TypeError` (uncaught). -/
def to_str (x : Cell) : Except String String :=
  match x with
  | .null => .error "TypeError: int() argument must not be None"
  | .int n => .ok (int_to_string n)
  | .str s => .ok s

/-- The key under which `to_json_stat` stores a dimension descriptor, as
the decoder sees it: line 480 keys the `dimension` mapping by
`to_int(column_name)`, and the `json.dumps`/`json.loads` round trip that
the claims apply to the result renders an integer key as its canonical
decimal string.  So a name that `int()` parses is replaced by the
canonical decimal of its value (e.g. `05` becomes `5`), while any other
name keys the descriptor unchanged. -/
def json_dim_key (nm : String) : String :=
  match python_int_of_string nm with
  | some i => int_to_string i
  | none => nm

/-- The `category.index` entry of a dimension descriptor: either an ordered
list of category ids or a mapping id -> position (source checks
`type(dim_index) is list`). -/
inductive IndexSpec where
  | ilist : List String → IndexSpec
  | imap : List (String × Nat) → IndexSpec
  deriving DecidableEq, Repr

/-- A dimension descriptor (`js_dict['dimension'][dim]` in the source).
`category_index = none` models both a missing `category` key and a missing
`category.index` key; likewise for `category_label`. -/
structure DimDesc where
  label : Option String
  category_index : Option IndexSpec
  category_label : Option (List (String × String))
  deriving DecidableEq, Repr

/-- The `value` entry of a document: a dense list, or a sparse mapping from
flat index to value.  The source parses the sparse keys with `int(key)`;
the decimal-string keys of the JSON object are modelled already parsed. -/
inductive ValueEntry where
  | dense : List Cell → ValueEntry
  | sparse : List (Nat × Cell) → ValueEntry
  deriving DecidableEq, Repr

/-- A JSON-stat document (dataset).  `dimension` is the ordered mapping
from dimension id to descriptor; `id`/`size` are the top-level (v2.0)
lists; `dim_id`/`dim_size` are the lists nested under `dimension`
(v1.3).  The single `value` field holds the entry stored under the
caller's value key. -/
structure Document where
  version : Option String
  id : Option (List String)
  size : Option (List Nat)
  dim_id : Option (List String)
  dim_size : Option (List Nat)
  dimension : List (String × DimDesc)
  value : ValueEntry
  deriving DecidableEq, Repr

/-- The `naming` argument; `check_input` in the source rejects every other
string with `ValueError`, so only these two values reach the codec. -/
inductive Naming where
  | label : Naming
  | id : Naming
  deriving DecidableEq, Repr

/-- A pandas DataFrame, modelled row-major: the ordered column names and
the list of rows. -/
structure DataFrame where
  colNames : List String
  rows : List (List Cell)
  deriving DecidableEq, Repr

/-- `float(s) >= 2.0` on a well-formed decimal version string
(`digits.digits`): the comparison holds exactly when the integer part is
at least 2, since a version below 2 has integer part at most 1 and
fractional part below 1.  `float` on a malformed string would raise;
in-scope documents and calls carry well-formed versions ("1.3", "2.0"),
for which this returns the comparison; other strings are mapped to
`false`. -/
def float_ge_two (s : String) : Bool :=
  let cs := s.toList.takeWhile (fun c => c ≠ '.')
  if cs.isEmpty || cs.any (fun c => ! c.isDigit) then false
  else 2 ≤ digits_to_nat 0 cs

/-- `check_version_2`: version attribute exists, is truthy and
`float(version) >= 2.0`. -/
def check_version_2 (doc : Document) : Bool :=
  match doc.version with
  | none => false
  | some v => float_ge_two v

/-! ## List utilities shared by the codec -/

/-- Prefix test on lists, used for the Python substring operator. -/
def list_is_pre {α : Type} [DecidableEq α] : List α → List α → Bool
  | [], _ => true
  | _ :: _, [] => false
  | a :: as, b :: bs => a = b && list_is_pre as bs

/-- Infix test on lists. -/
def list_is_inf {α : Type} [DecidableEq α] (needle : List α) : List α → Bool
  | [] => needle.isEmpty
  | b :: bs => list_is_pre needle (b :: bs) || list_is_inf needle bs

/-- The Python expression `needle in hay` on strings: substring
containment.  `to_json_stat` uses it as `item not in value` on column
names, which is a substring test, not an equality test. -/
def str_contains (hay needle : String) : Bool :=
  list_is_inf needle.toList hay.toList

/-- `uniquify` from the source: unique values of a list in first-seen
order, via an accumulated `seen` set. -/
def uniquify_aux {α : Type} [DecidableEq α] (seen : List α) : List α → List α
  | [] => []
  | x :: xs => if x ∈ seen then uniquify_aux seen xs else x :: uniquify_aux (x :: seen) xs

/-- `uniquify(seq)`. -/
def uniquify {α : Type} [DecidableEq α] (seq : List α) : List α :=
  uniquify_aux [] seq

/-- Insertion of one element into a list sorted by a numeric key.  Models
the pandas `sort_index(by='index')` column sort; in every in-scope use the
keys are pairwise distinct, so the sorted result is unique and the
stability policy of the pandas sort algorithm is immaterial. -/
def insert_by {α : Type} (key : α → Nat) (x : α) : List α → List α
  | [] => [x]
  | y :: ys => if key x ≤ key y then x :: y :: ys else y :: insert_by key x ys

/-- Sort by a numeric key (insertion sort). -/
def sort_by {α : Type} (key : α → Nat) : List α → List α
  | [] => []
  | x :: xs => insert_by key x (sort_by key xs)

/-- `OrderedDict` insertion: replace the value at an existing key in
place, otherwise append. -/
def od_update {β : Type} (l : List (String × β)) (k : String) (v : β) :
    List (String × β) :=
  if l.any (fun p => p.1 = k) then
    l.map (fun p => if p.1 = k then (k, v) else p)
  else l ++ [(k, v)]

/-- `OrderedDict([(k, v), ...])`: fold `od_update` over the pairs.  A
repeated key keeps its first position and takes its last value. -/
def od_from_list {β : Type} (l : List (String × β)) : List (String × β) :=
  l.foldl (fun acc p => od_update acc p.1 p.2) []

/-! ## Dimension resolver (`get_dim_label` / `get_dim_index`) -/

/-- The index DataFrame built from a raw `category.index` entry:
a list gives `(id, position)` pairs, a mapping gives its `(key, value)`
pairs in insertion order (not yet sorted). -/
def index_frame (ix : IndexSpec) : List (String × Nat) :=
  match ix with
  | .ilist l => l.enum.map (fun p => (p.2, p.1))
  | .imap m => m

/-- `pd.merge(dim_label, dim_index, on='id')`: inner join; the result
order follows the left frame and, per left row, the matching right rows in
order. -/
def merge_on_id (lf : List (String × String)) (rf : List (String × Nat)) :
    List (String × String × Nat) :=
  lf.flatMap (fun l => (rf.filter (fun r => r.1 = l.1)).map (fun r => (l.1, l.2, r.2)))

mutual

/-- `get_dim_label(js_dict, dim)` on the descriptor (the `input='dataset'`
branch; the `input='dimension'` branch is used only by `Dimension.write`,
which no claim touches).  Rows are `(id, label, index)` triples.  The
fallback for a missing `category.label` calls `get_dim_index`; a missing
`category.index` synthesizes the single row `(first label id, 0)`
(an empty label frame makes `dim_label['id'][0]` raise). -/
def get_dim_label_fuel : Nat → DimDesc → Except String (List (String × String × Nat))
  | 0, _ => .error "RecursionError: maximum recursion depth exceeded"
  | fuel + 1, desc => do
    let dim_label ←
      match desc.category_label with
      | some lbl => .ok (lbl.map (fun p => (p.1, p.2)))
      | none => do
        let di ← get_dim_index_fuel fuel desc
        .ok (di.map (fun p => (p.1, p.1)))
    let dim_index ←
      match desc.category_index with
      | some ix => .ok (index_frame ix)
      | none =>
        match dim_label.head? with
        | some p => .ok [(p.1, 0)]
        | none => .error "KeyError: 0"
    .ok (sort_by (fun r => r.2.2) (merge_on_id dim_label dim_index))

/-- `get_dim_index(js_dict, dim)` on the descriptor.  Rows are
`(id, index)` pairs, sorted by index.  The fallback for a missing
`category.index` takes the first row of `get_dim_label`. -/
def get_dim_index_fuel : Nat → DimDesc → Except String (List (String × Nat))
  | 0, _ => .error "RecursionError: maximum recursion depth exceeded"
  | fuel + 1, desc =>
    match desc.category_index with
    | some ix => .ok (sort_by (fun r => r.2) (index_frame ix))
    | none => do
      let dl ← get_dim_label_fuel fuel desc
      match dl.head? with
      | some r => .ok [(r.1, 0)]
      | none => .error "KeyError: 0"

end

/-- `get_dim_label` entry point (fuel = CPython recursion limit). -/
def get_dim_label (desc : DimDesc) : Except String (List (String × String × Nat)) :=
  get_dim_label_fuel 1000 desc

/-- `get_dim_index` entry point (fuel = CPython recursion limit). -/
def get_dim_index (desc : DimDesc) : Except String (List (String × Nat)) :=
  get_dim_index_fuel 1000 desc

/-- `js_dict['dimension'][dim]`: `KeyError` when the dimension id is not a
key of the mapping. -/
def lookup_dim (doc : Document) (dim : String) : Except String DimDesc :=
  match doc.dimension.find? (fun p => p.1 = dim) with
  | some p => .ok p.2
  | none => .error "KeyError: dimension"

/-- The loop body of `get_dimensions`, iterated over the dimension ids.
For each id it reads `js_dict['dimension'][dim]['label']` (a `KeyError`
when absent, even under `naming='id'` where the name is then unused), and
appends the naming-projected category column of the dimension frame: the
`label` column of `get_dim_label` under `naming='label'`, the `id` column
of `get_dim_index` under `naming='id'` (the projection `dimensions[i][naming]`
that `get_df_row` performs on each frame is fused here). -/
def dims_loop (doc : Document) (naming : Naming) :
    List String → Except String (List (List String) × List String)
  | [] => .ok ([], [])
  | dim :: rest => do
    let desc ← lookup_dim doc dim
    let rawName ←
      match desc.label with
      | some l => .ok l
      | none => .error "KeyError: label"
    let entry ←
      match naming with
      | .label => do
        let fr ← get_dim_label desc
        .ok (fr.map (fun r => r.2.1), if rawName = "" then dim else rawName)
      | .id => do
        let fr ← get_dim_index desc
        .ok (fr.map (fun r => r.1), dim)
    let rest2 ← dims_loop doc naming rest
    .ok (entry.1 :: rest2.1, entry.2 :: rest2.2)

/-- `get_dimensions(js_dict, naming)`: iterate over `js_dict['id']` when
the document is version >= 2.0, else `js_dict['dimension']['id']`. -/
def get_dimensions (doc : Document) (naming : Naming) :
    Except String (List (List String) × List String) := do
  let ids ←
    if check_version_2 doc then
      match doc.id with
      | some l => .ok l
      | none => .error "KeyError: id"
    else
      match doc.dim_id with
      | some l => .ok l
      | none => .error "KeyError: id"
  dims_loop doc naming ids

/-! ## Value array resolver (`get_values`) -/

/-- The sparse-reconstruction size of `get_values`:
`js_dict['size']` if present and truthy (non-empty), else
`js_dict['dimension']['size']` (`KeyError` when missing). -/
def sparse_size (doc : Document) : Except String (List Nat) :=
  match doc.size with
  | some s =>
    if s.isEmpty then
      match doc.dim_size with
      | some t => .ok t
      | none => .error "KeyError: size"
    else .ok s
  | none =>
    match doc.dim_size with
    | some t => .ok t
    | none => .error "KeyError: size"

/-- The placement loop `for (key, value) in values.items(): vals[key] = value`.
Python raises `IndexError` when a key is not below the list length. -/
def set_values (m : List (Nat × Cell)) (vals : List Cell) : Except String (List Cell) :=
  match m with
  | [] => .ok vals
  | (k, v) :: rest =>
    if k < vals.length then set_values rest (vals.set k v) else
      .error "IndexError: list assignment index out of range"

/-- `get_values`.  For a list value, the source checks
`type(values[0]) is not dict or tuple`, a condition that is always true
(`tuple` is truthy), so any non-empty list is returned unchanged and an
empty list raises `IndexError` at `values[0]`.  Otherwise the value is a
mapping: allocate `prod(size) * [None]` and place each entry at its parsed
integer key.  `np.prod` of an empty (nested) size array is a float, and
`float * [None]` raises `TypeError`. -/
def get_values (doc : Document) : Except String (List Cell) :=
  match doc.value with
  | .dense l =>
    if l.isEmpty then .error "IndexError: list index out of range" else .ok l
  | .sparse m => do
    let s ← sparse_size doc
    if s.isEmpty then .error "TypeError: cannot multiply sequence by float" else
    set_values m (List.replicate s.prod Cell.null)

/-- Dense reconstruction described by the spec: length `total`, each
mapped value at its key, null at every unmapped offset. -/
def spec_dense (m : List (Nat × Cell)) (total : Nat) : List Cell :=
  (List.range total).map (fun j =>
    match m.find? (fun p => p.1 = j) with
    | some p => p.2
    | none => Cell.null)

/-! ## Row generator (`get_df_row`) -/

/-- The generator `get_df_row(dimensions, naming, i, record)`, embedded on
the suffix `dimensions[i:]` of the per-dimension category lists (so `i` is
`dims.length - suffix.length`).  For each category of the current
dimension it extends `record`; the extension is yielded when it is full
(`len(record) == len(dimensions)`) and recursed upon when dimensions
remain (`i + 1 < len(dimensions)`, i.e. the suffix tail is non-empty).
The source's trailing `record.pop()` is the mutable-list backtracking that
value-passing makes unnecessary.  An empty `dimensions` makes the source
raise `IndexError` at `dimensions[0]`; here the caller (`generate_df`)
raises before iterating. -/
def get_df_row_aux {α : Type} (total : Nat) (record : List α) :
    List (List α) → List (List α)
  | [] => []
  | cur :: rest =>
    cur.flatMap (fun d =>
      (if record.length + 1 = total then [record ++ [d]] else []) ++
      (if rest.isEmpty then [] else get_df_row_aux total (record ++ [d]) rest))

/-- `get_df_row(dimensions, naming)` with `i = 0` and an empty record.
`check_input(naming)` passes for both values of `Naming`. -/
def get_df_row {α : Type} (dims : List (List α)) : List (List α) :=
  get_df_row_aux dims.length [] dims

/-- The row-major cartesian product: outer loop is dimension 0, the last
dimension varies fastest. -/
def cart_prod {α : Type} : List (List α) → List (List α)
  | [] => [[]]
  | l :: ls => l.flatMap (fun x => (cart_prod ls).map (fun r => x :: r))

/-! ## Cube -> table decoder (`generate_df`) -/

/-- The comprehension `[category + [values[i]] for i, category in
enumerate(get_df_row(dimensions, naming))]`: appends `values[i]` to the
i-th generated row, raising `IndexError` when the enumeration outruns the
value list. -/
def attach_values (rows : List (List Cell)) (vals : List Cell) (i : Nat) :
    Except String (List (List Cell)) :=
  match rows with
  | [] => .ok []
  | r :: rs =>
    if i < vals.length then do
      let rest ← attach_values rs vals (i + 1)
      .ok ((r ++ [vals.getD i Cell.null]) :: rest)
    else .error "IndexError: list index out of range"

/-- `generate_df(js_dict, naming, value)`.  After building the rows, the
source sets `output.columns = dim_names + [value]` and
`output.index = range(0, len(values))`; on an empty row list the first
assignment raises (the empty DataFrame has no columns) and on a row/value
count mismatch the second raises (pandas length-mismatch `ValueError`).
The generated category cells are strings (ids or labels read from the
document). -/
def generate_df (doc : Document) (naming : Naming) (value : String) :
    Except String DataFrame := do
  let dims_names ← get_dimensions doc naming
  let values ← get_values doc
  if dims_names.1.isEmpty then .error "IndexError: list index out of range" else
  let rows ← attach_values ((get_df_row dims_names.1).map (fun r => r.map Cell.str)) values 0
  if rows.isEmpty then .error "ValueError: Length mismatch: columns" else
  if rows.length ≠ values.length then .error "ValueError: Length mismatch: index" else
  .ok { colNames := dims_names.2 ++ [value], rows := rows }

/-! ## Table -> cube encoder (`to_json_stat`) -/

/-- Column `j` of a DataFrame, as the list of its cells. -/
def df_column (df : DataFrame) (j : Nat) : List Cell :=
  df.rows.map (fun r => r.getD j Cell.null)

/-- The columns selected by
`data[row].filter([item for item in data[row].columns.values if item not
in value])`: the positions and names of the columns whose name is *not a
substring* of the value key (`item not in value` is Python substring
containment on strings). -/
def category_columns (df : DataFrame) (value : String) : List (Nat × String) :=
  df.colNames.enum.filter (fun p => ! str_contains value p.2)

/-- `[to_str(j) for j in cats]`, propagating the `TypeError` that
`to_str(None)` raises. -/
def cats_to_str : List Cell → Except String (List String)
  | [] => .ok []
  | c :: cs => do
    let s ← to_str c
    let rest ← cats_to_str cs
    .ok (s :: rest)

/-- One entry of the `categories` comprehension of `to_json_stat`:
`{to_int(i): {"label": to_str(i), "category": {"index": OrderedDict(...),
"label": OrderedDict(...)}}}` for a category column with cells `col` and
name `nm`.  `to_int(k)` on the enumeration position `k` is the identity;
the mapping key is `to_int(nm)` as rendered by the JSON round trip
(`json_dim_key`), while the label `to_str(nm)` is the original
column-name string. -/
def build_desc (col : List Cell) (nm : String) : Except String (String × DimDesc) := do
  let us ← cats_to_str (uniquify col)
  let ix := od_from_list (us.enum.map (fun p => (p.2, p.1)))
  let lb := od_from_list (us.map (fun s2 => (s2, s2)))
  .ok (json_dim_key nm, { label := some nm, category_index := some (.imap ix),
                          category_label := some lb })

/-- The `categories` list comprehension, over the selected category
columns. -/
def build_all (df : DataFrame) : List (Nat × String) → Except String (List (String × DimDesc))
  | [] => .ok []
  | p :: rest => do
    let d ← build_desc (df_column df p.1) p.2
    let ds ← build_all df rest
    .ok (d :: ds)

/-- `for category in categories: dataset["dimension"].update(category)`. -/
def od_update_all (cats : List (String × DimDesc)) (init : List (String × DimDesc)) :
    List (String × DimDesc) :=
  cats.foldl (fun acc c => od_update acc c.1 c.2) init

/-- The position of the column that `dataframe[value]` selects: the unique
column labelled `value`.  `KeyError` when no column has that name; two
same-named value columns yield a sub-DataFrame whose truth value is
ambiguous, raising `ValueError` at `pd.isnull(x)`. -/
def value_col_index (df : DataFrame) (value : String) : Except String Nat :=
  match df.colNames.enum.filter (fun p => p.2 = value) with
  | [] => .error "KeyError: value"
  | [vc] => .ok vc.1
  | _ => .error "ValueError: The truth value of a DataFrame is ambiguous"

/-- The body of `to_json_stat` for one DataFrame, producing the document
(the source then wraps documents in a list or dict and `json.dumps` them;
the claims apply the decoder to the parsed document, so the envelope and
serialization plumbing are not modelled).  Steps, in source order:
select the category columns (substring filter), raise `ValueError` when
their names repeat (`len(...) != len(set(...))`), build the `categories`
descriptors, read the value column (`dataframe[value]`), map nulls to null
(`None if pd.isnull(x) else x`), and assemble the version-2.0 envelope
(`version`, `class`, top-level `id`/`size`) or the version-1.3 envelope
(`id`/`size` inside `dimension`).  The category update loop runs twice in
the source; both runs are kept. -/
def to_json_stat_single (df : DataFrame) (value : String) (version : String) :
    Except String Document := do
  let dims := category_columns df value
  let dimNames := dims.map (fun p => p.2)
  if dimNames.length ≠ (uniquify dimNames).length then
    .error "ValueError: Non-value columns must constitute a unique ID" else
  let categories ← build_all df dims
  let vcIdx ← value_col_index df value
  let vlist := (df_column df vcIdx).map (fun x => if x = Cell.null then Cell.null else x)
  let sizes := dims.map (fun p => (uniquify (df_column df p.1)).length)
  let d2 := od_update_all categories (od_update_all categories [])
  if float_ge_two version then
    .ok { version := some version, id := some dimNames, size := some sizes,
          dim_id := none, dim_size := none, dimension := d2, value := .dense vlist }
  else
    .ok { version := none, id := none, size := none,
          dim_id := some dimNames, dim_size := some sizes, dimension := d2,
          value := .dense vlist }

/-! ## Mixed-radix index mapper and point lookup (`Dataset` methods) -/

/-- `self['size'] if self.get('size') else self['dimension']['size']`:
a present but empty top-level `size` is falsy, so it falls through to the
nested one; a missing nested `size` raises `KeyError`. -/
def dataset_size (doc : Document) : Except String (List Nat) :=
  match doc.size with
  | some s =>
    if s.isEmpty then
      match doc.dim_size with
      | some t => .ok t
      | none => .error "KeyError: size"
    else .ok s
  | none =>
    match doc.dim_size with
    | some t => .ok t
    | none => .error "KeyError: size"

/-- `self['id'] if self.get('id') else self['dimension']['id']` (same
truthiness pattern). -/
def dataset_ids (doc : Document) : Except String (List String) :=
  match doc.id with
  | some l =>
    if l.isEmpty then
      match doc.dim_id with
      | some t => .ok t
      | none => .error "KeyError: id"
    else .ok l
  | none =>
    match doc.dim_id with
    | some t => .ok t
    | none => .error "KeyError: id"

/-- One iteration of the loop in `Dataset.get_value_index`:
`mult *= size[ndims - idx] if (idx > 0) else 1` followed by
`num += mult * indices[ndims - idx - 1]`, with the pair `(mult, num)` as
the accumulator. -/
def gvi_step (size indices : List Nat) (p : Nat × Nat) (idx : Nat) : Nat × Nat :=
  let mult := if 0 < idx then p.1 * size.getD (size.length - idx) 0 else p.1
  (mult, p.2 + mult * indices.getD (size.length - idx - 1) 0)

/-- The loop of `Dataset.get_value_index`: `for idx, dim in enumerate(size)`
starting from `mult = 1`, `num = 0`, returning `num`.  The list accesses
are in range whenever `indices` has at least `len(size)` entries (the
hypothesis of the theorems below); outside that range Python raises
`IndexError`. -/
def get_value_index_core (size indices : List Nat) : Nat :=
  ((List.range size.length).foldl (gvi_step size indices) (1, 0)).2

/-- `Dataset.get_value_index`. -/
def get_value_index (doc : Document) (indices : List Nat) : Except String Nat := do
  let size ← dataset_size doc
  .ok (get_value_index_core size indices)

/-- The specification formula of the claim: `flat_index = sum over d of
dim_indices[d] * product(sizes[d+1..end])`, dimension 0 outermost. -/
def flat_index_spec : List Nat → List Nat → Nat
  | i :: is, _ :: ss => i * ss.prod + flat_index_spec is ss
  | _, _ => 0

/-- `Dataset.get_dimension_index(name, value)`.  When
`self['dimension'][name]['category']` has no `index` key (including a
missing dimension or category), return 0 without consulting the queried
category id; a list index is searched with `list.index` (`ValueError`
when absent), a mapping is subscripted (`KeyError` when absent). -/
def get_dimension_index (doc : Document) (name : String) (v : String) :
    Except String Nat :=
  match doc.dimension.find? (fun p => p.1 = name) with
  | none => .ok 0
  | some p =>
    match p.2.category_index with
    | none => .ok 0
    | some (.ilist l) =>
      match l.findIdx? (fun x => x = v) with
      | some k => .ok k
      | none => .error "ValueError: not in list"
    | some (.imap m) =>
      match m.find? (fun q => q.1 = v) with
      | some q => .ok q.2
      | none => .error "KeyError: category"

/-- The loop of `Dataset.get_dimension_indices` over the declared
dimension ids.  The query is a list of single-pair dicts; for each id the
first dict containing it supplies the category
(`[d.get(id) for d in query if id in d][0]`, an `IndexError` when no dict
mentions the id). -/
def gdi_loop (doc : Document) (query : List (String × String)) :
    List String → Except String (List Nat)
  | [] => .ok []
  | id1 :: rest => do
    let q ←
      match query.find? (fun d => d.1 = id1) with
      | some d => .ok d.2
      | none => .error "IndexError: list index out of range"
    let k ← get_dimension_index doc id1 q
    let ks ← gdi_loop doc query rest
    .ok (k :: ks)

/-- `Dataset.get_dimension_indices(query)`. -/
def get_dimension_indices (doc : Document) (query : List (String × String)) :
    Except String (List Nat) := do
  let ids ← dataset_ids doc
  gdi_loop doc query ids

/-- `Dataset.get_value_by_index(index)`: `self['value'][index]`, the raw
entry.  On a dense list this is a bounds-checked access; on a sparse
mapping the integer subscript misses the string keys and raises
`KeyError`. -/
def get_value_by_index (doc : Document) (index : Nat) : Except String Cell :=
  match doc.value with
  | .dense l =>
    if index < l.length then .ok (l.getD index Cell.null)
    else .error "IndexError: list index out of range"
  | .sparse _ => .error "KeyError: integer subscript into string-keyed mapping"

/-- `Dataset.get_value(query)`: indices, then flat index, then value. -/
def get_value (doc : Document) (query : List (String × String)) :
    Except String Cell := do
  let indices ← get_dimension_indices doc query
  let index ← get_value_index doc indices
  get_value_by_index doc index

/-- The category ids recorded in a `category.index` entry. -/
def index_ids (ix : IndexSpec) : List String :=
  match ix with
  | .ilist l => l
  | .imap m => m.map (fun p => p.1)

/-! ## Spec-side helpers for the round-trip claim -/

/-- Pair rows with values positionally, appending the value as the last
cell of each row. -/
def zip_append : List (List Cell) → List Cell → List (List Cell)
  | r :: rs, v :: vs => (r ++ [v]) :: zip_append rs vs
  | _, _ => []

/-- The descriptor that `to_json_stat` builds for a category column named
`nm` whose distinct cells, in first-seen order, are the strings `cs`. -/
def mk_desc (nm : String) (cs : List String) : DimDesc :=
  { label := some nm,
    category_index := some (.imap (cs.enum.map (fun p => (p.2, p.1)))),
    category_label := some (cs.map (fun s2 => (s2, s2))) }

/-! ## Concrete inputs for witnesses and counterexamples -/

/-- A document with top-level `size = [2, 3]`. -/
def doc23 : Document :=
  { version := some "2.0", id := some ["A", "B"], size := some [2, 3],
    dim_id := none, dim_size := none, dimension := [], value := .dense [] }

/-- A document with `size = [2,2]` and sparse value `{"0": 10, "3": 40}`. -/
def doc_sparse : Document :=
  { version := some "2.0", id := some ["A", "B"], size := some [2, 2],
    dim_id := none, dim_size := none, dimension := [],
    value := .sparse [(0, .int 10), (3, .int 40)] }

/-- A document whose value entry is the empty list. -/
def doc_empty_value : Document :=
  { version := some "2.0", id := some ["A"], size := some [1],
    dim_id := none, dim_size := none, dimension := [], value := .dense [] }

/-- Ordered category lists of cardinalities `[2, 3, 4]`. -/
def dims234 : List (List String) :=
  [["a0", "a1"], ["b0", "b1", "b2"], ["c0", "c1", "c2", "c3"]]

/-- A dimension descriptor with a `category.index` but no
`category.label`. -/
def desc_no_label : DimDesc :=
  { label := some "d", category_index := some (.ilist ["x", "y", "z"]),
    category_label := none }

/-- A document whose dimension `d` has no `category.index` (a degenerate
single-category dimension) and a one-element value list. -/
def doc_no_index : Document :=
  { version := some "2.0", id := some ["d"], size := some [1],
    dim_id := none, dim_size := none,
    dimension := [("d", { label := some "d", category_index := none,
                          category_label := some [("only", "Only")] })],
    value := .dense [.int 7] }

/-- A document whose dimension `d` has the index `["x", "y"]`. -/
def doc_with_index : Document :=
  { version := some "2.0", id := some ["d"], size := some [2],
    dim_id := none, dim_size := none,
    dimension := [("d", { label := some "d",
                          category_index := some (.ilist ["x", "y"]),
                          category_label := some [("x", "X"), ("y", "Y")] })],
    value := .dense [.int 1, .int 2] }

/-- A document whose single dimension has two categories but whose value
list has three entries (row count 2 differs from value count 3). -/
def doc_mismatch : Document :=
  { version := some "2.0", id := some ["d"], size := some [2],
    dim_id := none, dim_size := none,
    dimension := [("d", { label := some "d",
                          category_index := some (.ilist ["x", "y"]),
                          category_label := some [("x", "X"), ("y", "Y")] })],
    value := .dense [.int 1, .int 2, .int 3] }

/-- A table with a category column `a` (whose name is a substring of
`value`) and the value column. -/
def df_sub : DataFrame :=
  { colNames := ["a", "value"],
    rows := [[.str "x", .int 1], [.str "y", .int 2]] }

/-- A table with two category columns both named `a` (each a substring of
`value`) and the value column. -/
def df_sub_dup : DataFrame :=
  { colNames := ["a", "a", "value"],
    rows := [[.str "x", .str "u", .int 1], [.str "y", .str "w", .int 2]] }

/-- A table with two category columns both named `region`. -/
def df_region_dup : DataFrame :=
  { colNames := ["region", "region", "value"],
    rows := [[.str "x", .str "u", .int 1], [.str "y", .str "w", .int 2]] }

/-- A dense rectangular 2x2 table whose rows are *not* in row-major order
with respect to the first-seen category order: rows
`(a1,b1,1), (a2,b2,2), (a1,b2,3), (a2,b1,4)`. -/
def df_scrambled : DataFrame :=
  { colNames := ["A", "B", "value"],
    rows := [[.str "a1", .str "b1", .int 1],
             [.str "a2", .str "b2", .int 2],
             [.str "a1", .str "b2", .int 3],
             [.str "a2", .str "b1", .int 4]] }

/-- A dense rectangular 2x2 table in row-major order. -/
def df_rowmajor : DataFrame :=
  { colNames := ["A", "B", "value"],
    rows := [[.str "a1", .str "b1", .int 1],
             [.str "a1", .str "b2", .int 2],
             [.str "a2", .str "b1", .int 3],
             [.str "a2", .str "b2", .int 4]] }

/-- A row-major table whose single category column is named `05`, an
integer-parseable but non-canonical name. -/
def df_numeric_name : DataFrame :=
  { colNames := ["05", "value"],
    rows := [[.str "x", .int 1], [.str "y", .int 2]] }

/-! # Theorems -/

/-! ## Lemmas about the list utilities -/

theorem list_is_pre_refl {α : Type} [DecidableEq α] (l : List α) :
    list_is_pre l l = true := by
  induction l with
  | nil => rfl
  | cons a as ih => simp [list_is_pre, ih]

theorem str_contains_refl (s : String) : str_contains s s = true := by
  unfold str_contains
  cases h : s.toList with
  | nil => simp [list_is_inf, List.isEmpty]
  | cons b bs => simp [list_is_inf, list_is_pre_refl]

theorem uniquify_aux_sublist {α : Type} [DecidableEq α] (l : List α) :
    ∀ seen, List.Sublist (uniquify_aux seen l) l := by
  induction l with
  | nil => intro seen; simp [uniquify_aux]
  | cons x xs ih =>
    intro seen
    unfold uniquify_aux
    by_cases hx : x ∈ seen
    · simp only [hx, if_pos]
      exact (ih seen).trans (List.sublist_cons_self x xs)
    · simp only [hx, if_neg, not_false_iff]
      exact List.Sublist.cons₂ x (ih (x :: seen))

theorem uniquify_aux_nodup {α : Type} [DecidableEq α] (l : List α) :
    ∀ seen, (uniquify_aux seen l).Nodup ∧ ∀ x ∈ uniquify_aux seen l, x ∉ seen := by
  induction l with
  | nil => intro seen; simp [uniquify_aux]
  | cons x xs ih =>
    intro seen
    unfold uniquify_aux
    by_cases hx : x ∈ seen
    · simp only [hx, if_pos]
      exact ih seen
    · simp only [hx, if_neg, not_false_iff]
      obtain ⟨hnd, hns⟩ := ih (x :: seen)
      refine ⟨List.nodup_cons.mpr ⟨fun hmem => ?_, hnd⟩, ?_⟩
      · exact (hns x hmem) (List.mem_cons_self x seen)
      · intro y hy
        rcases List.mem_cons.mp hy with h | h
        · subst h; exact hx
        · intro hys
          exact (hns y h) (List.mem_cons_of_mem x hys)

theorem uniquify_nodup {α : Type} [DecidableEq α] (l : List α) :
    (uniquify l).Nodup :=
  (uniquify_aux_nodup l []).1

theorem uniquify_aux_of_nodup {α : Type} [DecidableEq α] (l : List α) :
    ∀ seen, l.Nodup → (∀ x ∈ l, x ∉ seen) → uniquify_aux seen l = l := by
  induction l with
  | nil => intro seen _ _; rfl
  | cons x xs ih =>
    intro seen hnd hdisj
    unfold uniquify_aux
    have hx : x ∉ seen := hdisj x (List.mem_cons_self x xs)
    simp only [hx, if_neg, not_false_iff]
    congr 1
    refine ih (x :: seen) (List.nodup_cons.mp hnd).2 ?_
    intro y hy
    intro hmem
    rcases List.mem_cons.mp hmem with h | h
    · subst h; exact (List.nodup_cons.mp hnd).1 hy
    · exact hdisj y (List.mem_cons_of_mem x hy) h

theorem uniquify_of_nodup {α : Type} [DecidableEq α] (l : List α) (h : l.Nodup) :
    uniquify l = l :=
  uniquify_aux_of_nodup l [] h (by simp)

theorem uniquify_length_eq_iff {α : Type} [DecidableEq α] (l : List α) :
    (uniquify l).length = l.length ↔ l.Nodup := by
  constructor
  · intro h
    have := (uniquify_aux_sublist l []).eq_of_length h
    rw [← this]
    exact uniquify_nodup l
  · intro h
    rw [uniquify_of_nodup l h]

theorem sort_by_of_sorted {α : Type} (key : α → Nat) (l : List α)
    (h : l.Pairwise (fun a b => key a ≤ key b)) : sort_by key l = l := by
  induction l with
  | nil => rfl
  | cons x xs ih =>
    have hx : ∀ y ∈ xs, key x ≤ key y := fun y hy => (List.pairwise_cons.mp h).1 y hy
    have hxs : xs.Pairwise (fun a b => key a ≤ key b) := (List.pairwise_cons.mp h).2
    unfold sort_by
    rw [ih hxs]
    cases xs with
    | nil => rfl
    | cons y ys =>
      unfold insert_by
      have : key x ≤ key y := hx y (List.mem_cons_self y ys)
      simp [this]

theorem mem_insert_by {α : Type} (key : α → Nat) (x y : α) (l : List α) :
    y ∈ insert_by key x l ↔ y = x ∨ y ∈ l := by
  induction l with
  | nil => simp [insert_by]
  | cons z zs ih =>
    unfold insert_by
    by_cases h : key x ≤ key z
    · simp [h]
    · simp only [h, if_neg, not_false_iff, List.mem_cons, ih]
      tauto

theorem mem_sort_by {α : Type} (key : α → Nat) (y : α) (l : List α) :
    y ∈ sort_by key l ↔ y ∈ l := by
  induction l with
  | nil => simp [sort_by]
  | cons x xs ih =>
    unfold sort_by
    rw [mem_insert_by, ih]
    simp

theorem map_getD_range {α : Type} (l : List α) (d : α) :
    (List.range l.length).map (fun j => l.getD j d) = l := by
  induction l with
  | nil => rfl
  | cons a t ih =>
    rw [List.length_cons, List.range_succ_eq_map, List.map_cons, List.map_map]
    show a :: _ = a :: t
    congr 1

/-! ## C2: the mixed-radix flat index -/

theorem foldl_congr_on {α β : Type} (f g : β → α → β) (l : List α)
    (h : ∀ x ∈ l, ∀ q, f q x = g q x) : ∀ p, l.foldl f p = l.foldl g p := by
  induction l with
  | nil => intro p; rfl
  | cons a t ih =>
    intro p
    have hfa : f p a = g p a := h a (List.mem_cons_self a t) p
    simp only [List.foldl_cons, hfa]
    exact ih (fun x hx q => h x (List.mem_cons_of_mem a hx) q) (g p a)

theorem gvi_loop_spec (size indices : List Nat) (hlen : indices.length = size.length) :
    (List.range size.length).foldl (gvi_step size indices) (1, 0) =
      ((size.drop 1).prod, flat_index_spec indices size) := by
  induction size generalizing indices with
  | nil =>
    cases indices with
    | nil => rfl
    | cons i is => simp at hlen
  | cons s ss ih =>
    cases indices with
    | nil => simp at hlen
    | cons i is =>
      have hlen' : is.length = ss.length := by simpa using hlen
      have hcong : ∀ x ∈ List.range ss.length, ∀ q,
          gvi_step (s :: ss) (i :: is) q x = gvi_step ss is q x := by
        intro x hx q
        have hxlt : x < ss.length := List.mem_range.mp hx
        have hA : (s :: ss).getD ((s :: ss).length - x) 0 =
            ss.getD (ss.length - x) 0 := by
          have h1 : (s :: ss).length - x = (ss.length - x) + 1 := by
            simp only [List.length_cons]; omega
          rw [h1, List.getD_cons_succ]
        have hB : (i :: is).getD ((s :: ss).length - x - 1) 0 =
            is.getD (ss.length - x - 1) 0 := by
          have h2 : (s :: ss).length - x - 1 = (ss.length - x - 1) + 1 := by
            simp only [List.length_cons]; omega
          rw [h2, List.getD_cons_succ]
        simp only [gvi_step, hA, hB]
      have hsplit : List.range (s :: ss).length =
          List.range ss.length ++ [ss.length] := by
        simp [List.range_succ]
      rw [hsplit, List.foldl_append,
        foldl_congr_on _ _ _ hcong (1, 0), ih is hlen']
      -- the final iteration, idx = ss.length
      cases ss with
      | nil =>
        cases is with
        | nil => simp [gvi_step, flat_index_spec]
        | cons _ _ => simp at hlen'
      | cons a t =>
        have hpos : 0 < (a :: t).length := by simp
        have e1 : (s :: a :: t).getD ((s :: a :: t).length - (a :: t).length) 0 = a := by
          have h1 : (s :: a :: t).length - (a :: t).length = 1 := by
            simp only [List.length_cons]; omega
          rw [h1]; rfl
        have e2 : (i :: is).getD ((s :: a :: t).length - (a :: t).length - 1) 0 = i := by
          have h2 : (s :: a :: t).length - (a :: t).length - 1 = 0 := by
            simp only [List.length_cons]; omega
          rw [h2]; rfl
        simp only [List.foldl_cons, List.foldl_nil, gvi_step, hpos, if_pos,
          e1, e2, flat_index_spec]
        have hd : (s :: a :: t).drop 1 = a :: t := rfl
        have hd2 : (a :: t).drop 1 = t := rfl
        rw [hd, hd2]
        simp only [List.prod_cons, Prod.mk.injEq]
        constructor
        · ring
        · ring

/-- **C2**.  For per-dimension indices and sizes of equal length (each index
within its size), `Dataset.get_value_index` computes
`sum over d of dim_indices[d] * product(sizes[d+1..end])`, dimension 0
outermost. -/
theorem get_value_index_is_mixed_radix (doc : Document) (indices size : List Nat)
    (hsize : dataset_size doc = .ok size)
    (hlen : indices.length = size.length)
    (_hbound : List.Forall₂ (· < ·) indices size) :
    get_value_index doc indices = .ok (flat_index_spec indices size) := by
  unfold get_value_index
  rw [hsize]
  show Except.ok (get_value_index_core size indices) = _
  unfold get_value_index_core
  rw [gvi_loop_spec size indices hlen]

/-- **C2 witness**: on sizes `[2,3]` the flat indices of `[0,0]`, `[0,1]`,
`[0,2]`, `[1,0]`, `[1,2]` are `0`, `1`, `2`, `3`, `5`. -/
theorem get_value_index_is_mixed_radix_witness :
    get_value_index doc23 [0, 0] = .ok 0 ∧
    get_value_index doc23 [0, 1] = .ok 1 ∧
    get_value_index doc23 [0, 2] = .ok 2 ∧
    get_value_index doc23 [1, 0] = .ok 3 ∧
    get_value_index doc23 [1, 2] = .ok 5 :=
  ⟨get_value_index_is_mixed_radix doc23 [0, 0] [2, 3] rfl rfl (by decide),
   get_value_index_is_mixed_radix doc23 [0, 1] [2, 3] rfl rfl (by decide),
   get_value_index_is_mixed_radix doc23 [0, 2] [2, 3] rfl rfl (by decide),
   get_value_index_is_mixed_radix doc23 [1, 0] [2, 3] rfl rfl (by decide),
   get_value_index_is_mixed_radix doc23 [1, 2] [2, 3] rfl rfl (by decide)⟩

/-! ## C3 and C10: the value array resolver -/

theorem set_values_spec (m : List (Nat × Cell)) :
    ∀ vals, (∀ p ∈ m, p.1 < vals.length) → (m.map Prod.fst).Nodup →
      set_values m vals = .ok ((List.range vals.length).map (fun j =>
        match m.find? (fun p => p.1 = j) with
        | some p => p.2
        | none => vals.getD j Cell.null)) := by
  induction m with
  | nil =>
    intro vals _ _
    unfold set_values
    congr 1
    exact ((List.map_congr_left fun j _ => by
      simp only [List.find?_nil]).trans (map_getD_range vals Cell.null)).symm
  | cons p rest ih =>
    intro vals hbound hnd
    obtain ⟨k, v⟩ := p
    have hk : k < vals.length := hbound (k, v) (List.mem_cons_self _ _)
    unfold set_values
    rw [if_pos hk]
    have hbound' : ∀ q ∈ rest, q.1 < (vals.set k v).length := by
      intro q hq
      rw [List.length_set]
      exact hbound q (List.mem_cons_of_mem _ hq)
    have hnd' : (rest.map Prod.fst).Nodup := (List.nodup_cons.mp (by simpa using hnd)).2
    have hknot : k ∉ rest.map Prod.fst := (List.nodup_cons.mp (by simpa using hnd)).1
    rw [ih (vals.set k v) hbound' hnd', List.length_set]
    congr 1
    refine List.map_congr_left ?_
    intro j hj
    have hjlt : j < vals.length := List.mem_range.mp hj
    by_cases hjk : k = j
    · subst hjk
      have hfind : rest.find? (fun q => q.1 = k) = none := by
        rw [List.find?_eq_none]
        intro q hq
        simp only [decide_eq_true_eq]
        intro hq1
        exact hknot (hq1 ▸ List.mem_map_of_mem Prod.fst hq)
      rw [hfind, List.find?_cons_of_pos _ (by simp)]
      show (vals.set k v).getD k Cell.null = v
      rw [List.getD_eq_getElem?_getD, List.getElem?_set_self hk]
      rfl
    · rw [List.find?_cons_of_neg _ (by simp only [decide_eq_true_eq]; exact hjk)]
      cases hf : rest.find? (fun q => q.1 = j) with
      | some q => rfl
      | none =>
        show (vals.set k v).getD j Cell.null = vals.getD j Cell.null
        rw [List.getD_eq_getElem?_getD, List.getD_eq_getElem?_getD,
          List.getElem?_set_ne hjk]

/-- **C3**.  For a document whose value entry is a sparse mapping with
distinct keys below `total = product(size)` (top-level `size`, else the
one under `dimension`), `get_values` returns a dense list of length
`total` with each mapped value at its parsed key and null elsewhere. -/
theorem get_values_sparse_spec (doc : Document) (m : List (Nat × Cell)) (s : List Nat)
    (hval : doc.value = .sparse m)
    (hs : sparse_size doc = .ok s)
    (hne : s ≠ [])
    (hnd : (m.map Prod.fst).Nodup)
    (hbound : ∀ p ∈ m, p.1 < s.prod) :
    get_values doc = .ok (spec_dense m s.prod) ∧
      (spec_dense m s.prod).length = s.prod := by
  constructor
  · unfold get_values
    rw [hval, hs]
    show (if s.isEmpty then _ else set_values m (List.replicate s.prod Cell.null)) = _
    have : s.isEmpty = false := by
      cases s with
      | nil => exact absurd rfl hne
      | cons a t => rfl
    rw [this]
    simp only [Bool.false_eq_true, if_neg, not_false_iff]
    rw [set_values_spec m (List.replicate s.prod Cell.null)
      (by intro p hp; rw [List.length_replicate]; exact hbound p hp) hnd]
    rw [List.length_replicate]
    unfold spec_dense
    congr 1
    refine List.map_congr_left ?_
    intro j hj
    cases hf : m.find? (fun p => p.1 = j) with
    | some q => rfl
    | none =>
      show (List.replicate s.prod Cell.null).getD j Cell.null = Cell.null
      rw [List.getD_eq_getElem?_getD, List.getElem?_replicate]
      by_cases hjp : j < s.prod
      · rw [if_pos hjp]; rfl
      · rw [if_neg hjp]; rfl
  · unfold spec_dense
    simp

/-- **C3 witness**: with size `[2,2]` and value `{"0": 10, "3": 40}`,
`get_values` yields `[10, null, null, 40]`. -/
theorem get_values_sparse_spec_witness :
    get_values doc_sparse = .ok [Cell.int 10, Cell.null, Cell.null, Cell.int 40] :=
  ((get_values_sparse_spec doc_sparse [(0, .int 10), (3, .int 40)] [2, 2]
    rfl rfl (by decide) (by decide) (by decide)).1).trans (by rfl)

/-- **C10**.  For a document whose value entry is the empty list,
`get_values` fails (it inspects `values[0]` unconditionally) instead of
returning the empty list. -/
theorem get_values_empty_list_fails (doc : Document)
    (hval : doc.value = .dense []) :
    ∃ e, get_values doc = .error e := by
  refine ⟨"IndexError: list index out of range", ?_⟩
  unfold get_values
  rw [hval]
  rfl

/-- **C10 witness**: `get_values` on a concrete document with `value = []`
raises. -/
theorem get_values_empty_list_fails_witness :
    ∃ e, get_values doc_empty_value = .error e :=
  get_values_empty_list_fails doc_empty_value rfl

/-! ## C4: the row generator -/

theorem cart_prod_length {α : Type} (ls : List (List α)) :
    (cart_prod ls).length = (ls.map List.length).prod := by
  induction ls with
  | nil => rfl
  | cons l ls ih =>
    have hinner : ∀ (l2 : List α),
        (l2.flatMap (fun x => (cart_prod ls).map (fun r => x :: r))).length =
          l2.length * (cart_prod ls).length := by
      intro l2
      induction l2 with
      | nil => simp
      | cons a t iht =>
        simp only [List.flatMap_cons, List.length_append, List.length_map, iht,
          List.length_cons]
        ring
    show (l.flatMap (fun x => (cart_prod ls).map (fun r => x :: r))).length = _
    rw [hinner, ih]
    simp [List.prod_cons]

theorem cart_prod_row_length {α : Type} (ls : List (List α)) :
    ∀ r ∈ cart_prod ls, r.length = ls.length := by
  induction ls with
  | nil =>
    intro r hr
    simp only [cart_prod, List.mem_singleton] at hr
    subst hr; rfl
  | cons l ls ih =>
    intro r hr
    simp only [cart_prod, List.mem_flatMap, List.mem_map] at hr
    obtain ⟨x, _, r', hr', rfl⟩ := hr
    simp [ih r' hr']

theorem gdr_aux_eq {α : Type} (suffix : List (List α)) :
    ∀ (record : List α) (total : Nat),
      record.length + suffix.length = total → suffix ≠ [] →
      get_df_row_aux total record suffix = (cart_prod suffix).map (fun r => record ++ r) := by
  induction suffix with
  | nil => intro _ _ _ hne; exact absurd rfl hne
  | cons cur rest ih =>
    intro record total htot _
    cases hrest : rest with
    | nil =>
      subst hrest
      have hyield : record.length + 1 = total := by
        simpa using htot
      have h1 : get_df_row_aux total record [cur] =
          cur.flatMap (fun d => [record ++ [d]]) := by
        show cur.flatMap _ = _
        refine List.flatMap_congr ?_
        intro d _
        rw [if_pos hyield]
        rfl
      have h2 : cart_prod [cur] = cur.flatMap (fun x => [[x]]) := rfl
      rw [h1, h2, List.map_flatMap]
      refine List.flatMap_congr ?_
      intro d _
      rfl
    | cons r2 rs =>
      subst hrest
      have hnoyield : ¬ (record.length + 1 = total) := by
        simp only [List.length_cons] at htot
        omega
      have h1 : get_df_row_aux total record (cur :: r2 :: rs) =
          cur.flatMap (fun d => get_df_row_aux total (record ++ [d]) (r2 :: rs)) := by
        show cur.flatMap _ = _
        refine List.flatMap_congr ?_
        intro d _
        rw [if_neg hnoyield]
        rfl
      have h2 : cart_prod (cur :: r2 :: rs) =
          cur.flatMap (fun x => (cart_prod (r2 :: rs)).map (fun r => x :: r)) := rfl
      rw [h1, h2, List.map_flatMap]
      refine List.flatMap_congr ?_
      intro d _
      rw [ih (record ++ [d]) total (by simp at htot ⊢; omega) (by simp),
        List.map_map]
      refine List.map_congr_left ?_
      intro r _
      simp

theorem get_df_row_eq_cart_prod {α : Type} (dims : List (List α)) (hne : dims ≠ []) :
    get_df_row dims = cart_prod dims := by
  have h := gdr_aux_eq dims [] dims.length (by simp) hne
  unfold get_df_row
  rw [h]
  exact (List.map_congr_left fun r _ => by simp).trans (List.map_id _)

/-- **C4**.  For a non-empty list of ordered per-dimension category lists,
`get_df_row` yields exactly the row-major cartesian product: every
combination of one category per dimension, dimension 0 outermost, the
last dimension varying fastest, and in particular
product-of-cardinalities many rows. -/
theorem get_df_row_is_rowmajor (dims : List (List String)) (hne : dims ≠ []) :
    get_df_row dims = cart_prod dims ∧
      (get_df_row dims).length = (dims.map List.length).prod := by
  refine ⟨get_df_row_eq_cart_prod dims hne, ?_⟩
  rw [get_df_row_eq_cart_prod dims hne, cart_prod_length]

/-- **C4 witness**: for cardinalities `[2,3,4]` the generator yields
exactly 24 rows, row 0 is the first category of every dimension and row 23
is the last category of every dimension. -/
theorem get_df_row_is_rowmajor_witness :
    get_df_row dims234 = cart_prod dims234 ∧
    (get_df_row dims234).length = 24 ∧
    (get_df_row dims234).headD [] = ["a0", "b0", "c0"] ∧
    (get_df_row dims234).getLast? = some ["a1", "b2", "c3"] :=
  ⟨(get_df_row_is_rowmajor dims234 (by decide)).1, by decide, by decide, by decide⟩

/-! ## C6: label fallback in the dimension resolver -/

/-- **C6**.  A dimension descriptor with a `category.index` but no
`category.label` resolves every category's label to equal its id: the
fallback builds the label frame by duplicating the id column of
`get_dim_index`. -/
theorem get_dim_label_fallback_id (desc : DimDesc) (ix : IndexSpec)
    (hlbl : desc.category_label = none) (hix : desc.category_index = some ix)
    (rows : List (String × String × Nat))
    (hres : get_dim_label desc = .ok rows) :
    ∀ r ∈ rows, r.2.1 = r.1 := by
  obtain ⟨lbl, cidx, clbl⟩ := desc
  have h1 : clbl = none := hlbl
  have h2 : cidx = some ix := hix
  subst h1
  subst h2
  have h3 : Except.ok (sort_by (fun r => r.2.2) (merge_on_id
      ((sort_by (fun r => r.2) (index_frame ix)).map (fun p => (p.1, p.1)))
      (index_frame ix))) = Except.ok rows := hres
  have h4 : rows = sort_by (fun r => r.2.2) (merge_on_id
      ((sort_by (fun r => r.2) (index_frame ix)).map (fun p => (p.1, p.1)))
      (index_frame ix)) := (Except.ok.inj h3).symm
  intro r hr
  rw [h4] at hr
  have hr2 := (mem_sort_by _ r _).mp hr
  unfold merge_on_id at hr2
  simp only [List.mem_flatMap, List.mem_map, List.mem_filter] at hr2
  obtain ⟨l, hl, r', _, hroweq⟩ := hr2
  obtain ⟨p, _, hp⟩ := hl
  rw [← hroweq]
  show l.2 = l.1
  rw [← hp]

/-- **C6 witness**: the descriptor with index `["x","y","z"]` and no
labels resolves with label = id on every row. -/
theorem get_dim_label_fallback_id_witness :
    ∃ rows, get_dim_label desc_no_label = .ok rows ∧ ∀ r ∈ rows, r.2.1 = r.1 :=
  ⟨[("x", "x", 0), ("y", "y", 1), ("z", "z", 2)], rfl,
   get_dim_label_fallback_id desc_no_label (.ilist ["x", "y", "z"]) rfl rfl _ rfl⟩

/-! ## C9: shape mismatch in the decoder -/

theorem except_bind_ok {α β : Type} (a : α) (f : α → Except String β) :
    (Except.ok a >>= f) = f a := rfl

theorem except_bind_err {α β : Type} (e : String) (f : α → Except String β) :
    ((Except.error e : Except String α) >>= f) = .error e := rfl

theorem attach_values_ok (rows : List (List Cell)) :
    ∀ (vals : List Cell) (i : Nat), i + rows.length ≤ vals.length →
      ∃ out, attach_values rows vals i = .ok out ∧ out.length = rows.length := by
  induction rows with
  | nil => intro vals i _; exact ⟨[], rfl, rfl⟩
  | cons r rs ih =>
    intro vals i hle
    have hi : i < vals.length := by
      simp only [List.length_cons] at hle
      omega
    have hle' : (i + 1) + rs.length ≤ vals.length := by
      simp only [List.length_cons] at hle
      omega
    obtain ⟨out, hout, hlen⟩ := ih vals (i + 1) hle'
    refine ⟨(r ++ [vals.getD i Cell.null]) :: out, ?_, by simp [hlen]⟩
    unfold attach_values
    rw [if_pos hi, hout]
    rfl

theorem attach_values_err (rows : List (List Cell)) :
    ∀ (vals : List Cell) (i : Nat), vals.length < i + rows.length →
      0 < rows.length → ∃ e, attach_values rows vals i = .error e := by
  induction rows with
  | nil => intro vals i _ hpos; exact absurd hpos (by simp)
  | cons r rs ih =>
    intro vals i hlt _
    by_cases hi : i < vals.length
    · have hrs : 0 < rs.length := by
        simp only [List.length_cons] at hlt
        omega
      have hlt' : vals.length < (i + 1) + rs.length := by
        simp only [List.length_cons] at hlt
        omega
      obtain ⟨e, he⟩ := ih vals (i + 1) hlt' hrs
      refine ⟨e, ?_⟩
      unfold attach_values
      rw [if_pos hi, he]
      rfl
    · refine ⟨"IndexError: list index out of range", ?_⟩
      unfold attach_values
      rw [if_neg hi]

/-- **C9**.  Whenever the number of generated rows (the row-major product
of the resolved dimensions) differs from the length of the resolved value
array, `generate_df` fails: a surplus of rows hits `values[i]`
(`IndexError`), a deficit of rows fails the `output.index = range(0,
len(values))` assignment (pandas length-mismatch `ValueError`). -/
theorem generate_df_shape_mismatch (doc : Document) (naming : Naming) (value : String)
    (dims : List (List String)) (names : List String) (vals : List Cell)
    (hdims : get_dimensions doc naming = .ok (dims, names))
    (hvals : get_values doc = .ok vals)
    (hmis : (get_df_row dims).length ≠ vals.length) :
    ∃ e, generate_df doc naming value = .error e := by
  unfold generate_df
  rw [hdims, except_bind_ok, hvals, except_bind_ok]
  by_cases hde : ((dims, names) : List (List String) × List String).1.isEmpty
  · rw [if_pos hde]
    exact ⟨_, rfl⟩
  · rw [if_neg hde]
    have hRlen : ((get_df_row ((dims, names) : List (List String) × List String).1).map
        (fun r => r.map Cell.str)).length = (get_df_row dims).length := by
      simp
    rcases Nat.lt_or_ge vals.length ((get_df_row dims).length) with hgt | hle
    · obtain ⟨e, he⟩ := attach_values_err
        ((get_df_row dims).map (fun r => r.map Cell.str)) vals 0
        (by rw [hRlen] at *; simpa using hgt) (by rw [hRlen]; omega)
      rw [he, except_bind_err]
      exact ⟨e, rfl⟩
    · obtain ⟨out, hout, hlen⟩ := attach_values_ok
        ((get_df_row dims).map (fun r => r.map Cell.str)) vals 0
        (by rw [hRlen] at *; simpa using hle)
      rw [hout, except_bind_ok]
      by_cases hoe : out.isEmpty
      · rw [if_pos hoe]
        exact ⟨_, rfl⟩
      · rw [if_neg hoe]
        have hne2 : out.length ≠ vals.length := by
          rw [hlen, hRlen]
          exact hmis
        rw [if_pos hne2]
        exact ⟨_, rfl⟩

/-- **C9 witness**: a single dimension of two categories with three
values makes `generate_df` fail. -/
theorem generate_df_shape_mismatch_witness :
    ∃ e, generate_df doc_mismatch .id "value" = .error e :=
  generate_df_shape_mismatch doc_mismatch .id "value" [["x", "y"]] ["d"]
    [.int 1, .int 2, .int 3] rfl rfl (by decide)

/-! ## C5: which columns become dimensions -/

/-- **C5 counterexample**.  The claim says every column other than the
value column becomes a dimension.  But the source selects category columns
with `item not in value` — a substring test — so the column named `a`
(whose name is a substring of `value` yet differs from it) is silently
dropped: encoding succeeds and the document's dimension id list is
empty. -/
theorem to_json_stat_dims_counterexample :
    df_sub.colNames.filter (fun nm => nm ≠ "value") = ["a"] ∧
    (category_columns df_sub "value").map (fun p => p.2) = [] ∧
    ∃ doc, to_json_stat_single df_sub "value" "2.0" = .ok doc ∧ doc.id = some [] :=
  ⟨by decide, by decide, ⟨_, rfl, rfl⟩⟩

theorem except_bind_ok_iff {α β : Type} (x : Except String α) (f : α → Except String β)
    (b : β) : (x >>= f) = .ok b ↔ ∃ a, x = .ok a ∧ f a = .ok b := by
  cases x with
  | error e =>
    constructor
    · intro h; exact absurd h (by simp [except_bind_err])
    · intro ⟨a, ha, _⟩; exact absurd ha (by simp)
  | ok a =>
    constructor
    · intro h; exact ⟨a, rfl, h⟩
    · intro ⟨a', ha, hf⟩
      have : a = a' := Except.ok.inj ha
      subst this
      exact hf

theorem enum_from_filter_map_snd (q : String → Bool) (l : List String) :
    ∀ n, ((List.enumFrom n l).filter (fun p => q p.2)).map (fun p => p.2) =
      l.filter q := by
  induction l with
  | nil => intro n; rfl
  | cons a t ih =>
    intro n
    show (((n, a) :: List.enumFrom (n + 1) t).filter (fun p => q p.2)).map _ = _
    by_cases ha : q a
    · rw [List.filter_cons_of_pos (by simpa using ha), List.map_cons,
        List.filter_cons_of_pos (by simpa using ha)]
      show a :: _ = a :: _
      congr 1
      exact ih (n + 1)
    · rw [List.filter_cons_of_neg (by simpa using ha),
        List.filter_cons_of_neg (by simpa using ha)]
      exact ih (n + 1)

/-- **C5 amended**.  For every table accepted by the encoder, the
dimension id list of the produced document (top level for version >= 2.0,
nested under `dimension` otherwise) consists of exactly the columns whose
name is *not a Python substring* of the value key, in order; in particular
the value column (a substring of itself) is excluded, but so is every
other column whose name happens to be a substring of the value key. -/
theorem to_json_stat_dims_are_nonsubstring_columns (df : DataFrame)
    (value version : String) (doc : Document)
    (hok : to_json_stat_single df value version = .ok doc) :
    (doc.id = some (df.colNames.filter (fun nm => ! str_contains value nm)) ∧
      doc.dim_id = none) ∨
    (doc.dim_id = some (df.colNames.filter (fun nm => ! str_contains value nm)) ∧
      doc.id = none) := by
  have hnames : (category_columns df value).map (fun p => p.2) =
      df.colNames.filter (fun nm => ! str_contains value nm) :=
    enum_from_filter_map_snd (fun nm => ! str_contains value nm) df.colNames 0
  by_cases hdup : ((category_columns df value).map (fun p => p.2)).length ≠
      (uniquify ((category_columns df value).map (fun p => p.2))).length
  · have herr : to_json_stat_single df value version =
        .error "ValueError: Non-value columns must constitute a unique ID" := by
      unfold to_json_stat_single
      rw [if_pos hdup]
    rw [herr] at hok
    exact absurd hok (by simp)
  · unfold to_json_stat_single at hok
    rw [if_neg hdup] at hok
    rw [except_bind_ok_iff] at hok
    obtain ⟨cats, _, hok⟩ := hok
    rw [except_bind_ok_iff] at hok
    obtain ⟨vcIdx, _, hok⟩ := hok
    by_cases hver : float_ge_two version = true
    · left
      have hok2 : (Except.ok
          ({ version := some version,
             id := some ((category_columns df value).map (fun p => p.2)),
             size := some ((category_columns df value).map
               (fun p => (uniquify (df_column df p.1)).length)),
             dim_id := none, dim_size := none,
             dimension := od_update_all cats (od_update_all cats []),
             value := .dense ((df_column df vcIdx).map
               (fun x => if x = Cell.null then Cell.null else x)) } : Document) :
          Except String Document) = .ok doc := by
        rw [← hok]
        show Except.ok _ = (if float_ge_two version = true then _ else _)
        rw [if_pos hver]
      have hd := Except.ok.inj hok2
      rw [← hd, ← hnames]
      exact ⟨rfl, rfl⟩
    · right
      have hok2 : (Except.ok
          ({ version := none, id := none, size := none,
             dim_id := some ((category_columns df value).map (fun p => p.2)),
             dim_size := some ((category_columns df value).map
               (fun p => (uniquify (df_column df p.1)).length)),
             dimension := od_update_all cats (od_update_all cats []),
             value := .dense ((df_column df vcIdx).map
               (fun x => if x = Cell.null then Cell.null else x)) } : Document) :
          Except String Document) = .ok doc := by
        rw [← hok]
        show Except.ok _ = (if float_ge_two version = true then _ else _)
        rw [if_neg hver]
      have hd := Except.ok.inj hok2
      rw [← hd, ← hnames]
      exact ⟨rfl, rfl⟩

/-- **C5 amended witness**: on a table with columns `region`, `year`,
`value` the dimension ids are `[region, year]`. -/
theorem to_json_stat_dims_are_nonsubstring_columns_witness :
    ∃ doc, to_json_stat_single df_rowmajor "value" "2.0" = .ok doc ∧
      (doc.id = some (df_rowmajor.colNames.filter
          (fun nm => ! str_contains "value" nm)) ∧ doc.dim_id = none) := by
  refine ⟨_, rfl, ?_⟩
  have h := to_json_stat_dims_are_nonsubstring_columns df_rowmajor "value" "2.0" _ rfl
  rcases h with h | h
  · exact h
  · exact absurd h.2 (by decide)

/-! ## C7: duplicate column names -/

/-- **C7 counterexample**.  The claim says any table with two same-named
non-value columns fails to encode.  But both columns named `a` are removed
by the substring filter before the duplicate check, so the encoding
succeeds and produces a document. -/
theorem to_json_stat_duplicate_counterexample :
    df_sub_dup.colNames.filter (fun nm => nm ≠ "value") = ["a", "a"] ∧
    ∃ doc, to_json_stat_single df_sub_dup "value" "2.0" = .ok doc :=
  ⟨by decide, ⟨_, rfl⟩⟩

/-- **C7 amended**.  When the names of the *selected* category columns
(those surviving the substring filter) contain a repeat, the encoder
raises `ValueError('Non-value columns must constitute a unique ID')`. -/
theorem to_json_stat_duplicate_fails (df : DataFrame) (value version : String)
    (hdup : ¬ ((category_columns df value).map (fun p => p.2)).Nodup) :
    to_json_stat_single df value version =
      .error "ValueError: Non-value columns must constitute a unique ID" := by
  have hlen : ((category_columns df value).map (fun p => p.2)).length ≠
      (uniquify ((category_columns df value).map (fun p => p.2))).length := by
    intro h
    exact hdup ((uniquify_length_eq_iff _).mp h.symm)
  unfold to_json_stat_single
  rw [if_pos hlen]

/-- **C7 amended witness**: two columns named `region` make the encoder
fail. -/
theorem to_json_stat_duplicate_fails_witness :
    to_json_stat_single df_region_dup "value" "2.0" =
      .error "ValueError: Non-value columns must constitute a unique ID" :=
  to_json_stat_duplicate_fails df_region_dup "value" "2.0" (by decide)

/-! ## C8: unknown category in a point query -/

/-- **C8 counterexample**.  The claim says a query naming a category id
absent from a dimension fails.  But for a dimension without
`category.index` (here `d`, whose only category id is `only`),
`get_dimension_index` returns 0 without looking at the queried id, and
`get_value` resolves the unknown id `zzz` to an actual value. -/
theorem get_dimension_index_unknown_counterexample :
    (doc_no_index.dimension.map (fun p => p.2.category_index)) = [none] ∧
    (doc_no_index.dimension.map (fun p => p.2.category_label)) =
      [some [("only", "Only")]] ∧
    get_dimension_index doc_no_index "d" "zzz" = .ok 0 ∧
    get_value doc_no_index [("d", "zzz")] = .ok (Cell.int 7) :=
  ⟨rfl, rfl, rfl, rfl⟩

theorem findIdx?_none_of_not_mem (v : String) (l : List String) (hv : v ∉ l) :
    l.findIdx? (fun x => x = v) = none := by
  rw [List.findIdx?_eq_none_iff]
  intro x hx
  exact decide_eq_false (fun hxv => hv (hxv ▸ hx))

/-- **C8 amended**.  When the queried dimension's descriptor carries a
`category.index` and the queried category id is not among its ids,
`get_dimension_index` fails (`ValueError` from `list.index` on a list,
`KeyError` on a mapping); when the descriptor has no `category.index`,
the lookup returns 0 regardless of the queried id. -/
theorem get_dimension_index_unknown_fails (doc : Document) (name v : String)
    (pr : String × DimDesc) (ix : IndexSpec)
    (hfind : doc.dimension.find? (fun p => p.1 = name) = some pr)
    (hix : pr.2.category_index = some ix)
    (habs : v ∉ index_ids ix) :
    ∃ e, get_dimension_index doc name v = .error e := by
  unfold get_dimension_index
  rw [hfind]
  show (∃ e, (match pr.2.category_index with
    | none => Except.ok 0
    | some (IndexSpec.ilist l) =>
      match List.findIdx? (fun x => x = v) l with
      | some k => Except.ok k
      | none => Except.error "ValueError: not in list"
    | some (IndexSpec.imap m) =>
      match List.find? (fun q => q.1 = v) m with
      | some q => Except.ok q.2
      | none => Except.error "KeyError: category") = Except.error e)
  rw [hix]
  cases ix with
  | ilist l =>
    show ∃ e, (match List.findIdx? (fun x => x = v) l with
      | some k => Except.ok k
      | none => Except.error "ValueError: not in list") = Except.error e
    rw [findIdx?_none_of_not_mem v l habs]
    exact ⟨_, rfl⟩
  | imap m =>
    have hnone : m.find? (fun q => q.1 = v) = none := by
      rw [List.find?_eq_none]
      intro q hq
      simp only [decide_eq_true_eq]
      intro hqv
      exact habs (hqv ▸ List.mem_map_of_mem (fun p => p.1) hq)
    show ∃ e, (match List.find? (fun q => q.1 = v) m with
      | some q => Except.ok q.2
      | none => Except.error "KeyError: category") = Except.error e
    rw [hnone]
    exact ⟨_, rfl⟩

/-- **C8 amended witness**: querying `zzz` in a dimension with index
`["x","y"]` fails. -/
theorem get_dimension_index_unknown_fails_witness :
    ∃ e, get_dimension_index doc_with_index "d" "zzz" = .error e :=
  get_dimension_index_unknown_fails doc_with_index "d" "zzz"
    ("d", { label := some "d", category_index := some (.ilist ["x", "y"]),
            category_label := some [("x", "X"), ("y", "Y")] })
    (.ilist ["x", "y"]) rfl rfl (by decide)

/-! ## C1: the encode/decode round trip

Helper lemmas about the encoder and decoder on tables whose rows are the
row-major enumeration of per-column category lists. -/

theorem cats_to_str_map_str (l : List String) :
    cats_to_str (l.map Cell.str) = .ok l := by
  induction l with
  | nil => rfl
  | cons a t ih =>
    show cats_to_str (Cell.str a :: t.map Cell.str) = _
    unfold cats_to_str
    rw [show to_str (Cell.str a) = .ok a from rfl, except_bind_ok, ih]
    rfl

theorem enumFrom_map_snd {α : Type} (l : List α) :
    ∀ n, (List.enumFrom n l).map (fun p => p.2) = l := by
  induction l with
  | nil => intro n; rfl
  | cons a t ih =>
    intro n
    show a :: (List.enumFrom (n + 1) t).map (fun p => p.2) = a :: t
    rw [ih (n + 1)]

theorem enum_swap_map_fst (cs : List String) :
    (cs.enum.map (fun p => (p.2, p.1))).map (fun q => q.1) = cs := by
  rw [List.map_map]
  exact enumFrom_map_snd cs 0

theorem od_foldl_append {β : Type} (l : List (String × β)) :
    ∀ acc, (l.map Prod.fst).Nodup → (∀ p ∈ l, ∀ q ∈ acc, p.1 ≠ q.1) →
      l.foldl (fun a p => od_update a p.1 p.2) acc = acc ++ l := by
  induction l with
  | nil => intro acc _ _; simp
  | cons p rest ih =>
    intro acc hnd hdisj
    obtain ⟨k, v⟩ := p
    have hknot : (k, v).1 ∉ rest.map Prod.fst :=
      (List.nodup_cons.mp (by simpa using hnd)).1
    have hupd : od_update acc k v = acc ++ [(k, v)] := by
      unfold od_update
      have hany : acc.any (fun q => q.1 = k) = false := by
        rw [List.any_eq_false]
        intro q hq
        simp only [decide_eq_true_eq]
        exact fun h => hdisj (k, v) (List.mem_cons_self _ _) q hq h.symm
      rw [hany]
      simp
    show List.foldl _ (od_update acc k v) rest = _
    rw [hupd, ih (acc ++ [(k, v)]) (List.nodup_cons.mp (by simpa using hnd)).2]
    · simp
    · intro p hp q hq
      rcases List.mem_append.mp hq with h | h
      · exact hdisj p (List.mem_cons_of_mem _ hp) q h
      · have : q = (k, v) := by simpa using h
        subst this
        intro hpk
        exact hknot (hpk ▸ List.mem_map_of_mem Prod.fst hp)

theorem od_from_list_of_nodup {β : Type} (l : List (String × β))
    (hnd : (l.map Prod.fst).Nodup) : od_from_list l = l := by
  unfold od_from_list
  rw [od_foldl_append l [] hnd (by simp)]
  rfl

theorem assoc_eq_of_nodup {β : Type} (l : List (String × β))
    (hnd : (l.map Prod.fst).Nodup) :
    ∀ p ∈ l, ∀ q ∈ l, p.1 = q.1 → p = q := by
  induction l with
  | nil => intro p hp; exact absurd hp (by simp)
  | cons a t ih =>
    intro p hp q hq hpq
    have hanot : a.1 ∉ t.map Prod.fst := (List.nodup_cons.mp (by simpa using hnd)).1
    have hnd' : (t.map Prod.fst).Nodup := (List.nodup_cons.mp (by simpa using hnd)).2
    rcases List.mem_cons.mp hp with hp1 | hp1
    · rcases List.mem_cons.mp hq with hq1 | hq1
      · rw [hp1, hq1]
      · subst hp1
        exact absurd (hpq ▸ List.mem_map_of_mem Prod.fst hq1) hanot
    · rcases List.mem_cons.mp hq with hq1 | hq1
      · subst hq1
        exact absurd (hpq ▸ List.mem_map_of_mem Prod.fst hp1) hanot
      · exact ih hnd' p hp1 q hq1 hpq

theorem od_update_mem_self {β : Type} (l : List (String × β)) (k : String) (v : β)
    (hmem : (k, v) ∈ l) (hnd : (l.map Prod.fst).Nodup) :
    od_update l k v = l := by
  unfold od_update
  have hany : l.any (fun q => q.1 = k) = true := by
    rw [List.any_eq_true]
    exact ⟨(k, v), hmem, by simp⟩
  rw [hany]
  simp only [if_pos]
  refine (List.map_congr_left ?_).trans (List.map_id _)
  intro p hp
  by_cases hpk : p.1 = k
  · have : p = (k, v) := assoc_eq_of_nodup l hnd p hp (k, v) hmem (by simpa using hpk)
    rw [if_pos hpk, this]
    rfl
  · rw [if_neg hpk]
    rfl

theorem od_update_all_self {β : Type} (l : List (String × β))
    (hnd : (l.map Prod.fst).Nodup) :
    l.foldl (fun a p => od_update a p.1 p.2) l = l := by
  have hgen : ∀ l2 : List (String × β), (∀ p ∈ l2, p ∈ l) →
      l2.foldl (fun a p => od_update a p.1 p.2) l = l := by
    intro l2
    induction l2 with
    | nil => intro _; rfl
    | cons p rest ih =>
      intro hsub
      show List.foldl _ (od_update l p.1 p.2) rest = l
      rw [od_update_mem_self l p.1 p.2 (hsub p (List.mem_cons_self _ _)) hnd]
      exact ih (fun q hq => hsub q (List.mem_cons_of_mem _ hq))
  exact hgen l (fun p hp => hp)

theorem filter_not_contains_enumFrom (names : List String) (value : String)
    (hnosub : ∀ nm ∈ names, str_contains value nm = false) :
    ∀ n, (List.enumFrom n (names ++ [value])).filter
        (fun p => ! str_contains value p.2) = List.enumFrom n names := by
  induction names with
  | nil =>
    intro n
    show ((n, value) :: []).filter _ = []
    rw [List.filter_cons_of_neg]
    · rfl
    · simp [str_contains_refl]
  | cons a t ih =>
    intro n
    have ha : str_contains value a = false := hnosub a (List.mem_cons_self _ _)
    show (((n, a) :: List.enumFrom (n + 1) (t ++ [value])).filter _) = _
    rw [List.filter_cons_of_pos (by simp [ha]),
      ih (fun nm hnm => hnosub nm (List.mem_cons_of_mem _ hnm)) (n + 1)]
    rfl

theorem filter_value_col_enumFrom (names : List String) (value : String)
    (hval : value ∉ names) :
    ∀ n, (List.enumFrom n (names ++ [value])).filter (fun p => p.2 = value) =
      [(n + names.length, value)] := by
  induction names with
  | nil =>
    intro n
    show ((n, value) :: []).filter _ = _
    rw [List.filter_cons_of_pos (by simp)]
    rfl
  | cons a t ih =>
    intro n
    have ha : a ≠ value := fun h => hval (h ▸ List.mem_cons_self a t)
    show (((n, a) :: List.enumFrom (n + 1) (t ++ [value])).filter _) = _
    rw [List.filter_cons_of_neg (by simp [ha]),
      ih (fun h => hval (List.mem_cons_of_mem _ h)) (n + 1)]
    have : n + 1 + t.length = n + (a :: t).length := by
      simp only [List.length_cons]
      omega
    rw [this]

theorem getD_append_len (l : List Cell) (v d : Cell) :
    (l ++ [v]).getD l.length d = v := by
  induction l with
  | nil => rfl
  | cons a t ih =>
    show (a :: (t ++ [v])).getD (t.length + 1) d = v
    rw [List.getD_cons_succ]
    exact ih

theorem zip_append_length (rows : List (List Cell)) :
    ∀ vals : List Cell, rows.length = vals.length →
      (zip_append rows vals).length = rows.length := by
  induction rows with
  | nil => intro vals _; rfl
  | cons r rs ih =>
    intro vals hlen
    cases vals with
    | nil => simp at hlen
    | cons v vs =>
      show (zip_append (r :: rs) (v :: vs)).length = rs.length + 1
      unfold zip_append
      rw [List.length_cons, ih vs (by simpa using hlen)]

theorem zip_append_column (rows : List (List Cell)) (colLen : Nat) :
    ∀ vals : List Cell, (∀ r ∈ rows, r.length = colLen) →
      rows.length = vals.length →
      (zip_append rows vals).map (fun row => row.getD colLen Cell.null) = vals := by
  induction rows with
  | nil =>
    intro vals _ hlen
    cases vals with
    | nil => rfl
    | cons v vs => simp at hlen
  | cons r rs ih =>
    intro vals hrow hlen
    cases vals with
    | nil => simp at hlen
    | cons v vs =>
      show ((r ++ [v]) :: zip_append rs vs).map _ = v :: vs
      rw [List.map_cons]
      have hr : r.length = colLen := hrow r (List.mem_cons_self _ _)
      rw [show (r ++ [v]).getD colLen Cell.null = v from hr ▸ getD_append_len r v Cell.null]
      rw [ih vs (fun r2 h2 => hrow r2 (List.mem_cons_of_mem _ h2)) (by simpa using hlen)]

theorem drop_eq_getD_cons (l : List Cell) (i : Nat) (h : i < l.length) :
    l.drop i = l.getD i Cell.null :: l.drop (i + 1) := by
  rw [List.getD_eq_getElem?_getD, List.getElem?_eq_getElem h]
  exact (List.getElem_cons_drop l i h).symm

theorem attach_values_eq_zip_append (rows : List (List Cell)) :
    ∀ (vals : List Cell) (i : Nat), i + rows.length ≤ vals.length →
      attach_values rows vals i = .ok (zip_append rows (vals.drop i)) := by
  induction rows with
  | nil => intro vals i _; rfl
  | cons r rs ih =>
    intro vals i hle
    have hi : i < vals.length := by
      simp only [List.length_cons] at hle
      omega
    unfold attach_values
    rw [if_pos hi, ih vals (i + 1) (by simp only [List.length_cons] at hle; omega),
      except_bind_ok]
    rw [drop_eq_getD_cons vals i hi]
    rfl

theorem map_null_id (l : List Cell) :
    l.map (fun x => if x = Cell.null then Cell.null else x) = l := by
  refine (List.map_congr_left ?_).trans (List.map_id _)
  intro x _
  by_cases h : x = Cell.null
  · rw [if_pos h, h]
    rfl
  · rw [if_neg h]
    rfl

theorem build_desc_str (col : List Cell) (nm : String) (cs : List String)
    (huniq : uniquify col = cs.map Cell.str) (hnd : cs.Nodup)
    (hkey : json_dim_key nm = nm) :
    build_desc col nm = .ok (nm, mk_desc nm cs) := by
  have h1 : ((cs.enum.map (fun p => (p.2, p.1))).map Prod.fst).Nodup := by
    rw [show (cs.enum.map (fun p => (p.2, p.1))).map Prod.fst = cs from
      enum_swap_map_fst cs]
    exact hnd
  have h2 : ((cs.map (fun s2 => (s2, s2))).map Prod.fst).Nodup := by
    rw [show (cs.map (fun s2 => (s2, s2))).map Prod.fst = cs from by
      rw [List.map_map]
      exact (List.map_congr_left fun x _ => rfl).trans (List.map_id _)]
    exact hnd
  unfold build_desc
  rw [huniq, cats_to_str_map_str, except_bind_ok,
    od_from_list_of_nodup _ h1, od_from_list_of_nodup _ h2, hkey]
  rfl

theorem build_all_enum (df : DataFrame) (names : List String) :
    ∀ (cats : List (List String)) (k : Nat),
      names.length = cats.length →
      (∀ j, j < names.length →
        uniquify (df_column df (k + j)) = (cats.getD j []).map Cell.str) →
      (∀ cs ∈ cats, cs.Nodup) →
      (∀ nm ∈ names, json_dim_key nm = nm) →
      build_all df (List.enumFrom k names) =
        .ok ((names.zip cats).map (fun p => (p.1, mk_desc p.1 p.2))) := by
  induction names with
  | nil => intro cats k _ _ _ _; rfl
  | cons nm rest ih =>
    intro cats k hlen huniq hnd hkeys
    cases cats with
    | nil => simp at hlen
    | cons cs cats' =>
      have hb : build_desc (df_column df k) nm = .ok (nm, mk_desc nm cs) := by
        refine build_desc_str (df_column df k) nm cs ?_ (hnd cs (List.mem_cons_self _ _))
          (hkeys nm (List.mem_cons_self _ _))
        have := huniq 0 (by simp)
        simpa using this
      show (do
        let d ← build_desc (df_column df k) nm
        let ds ← build_all df (List.enumFrom (k + 1) rest)
        Except.ok (d :: ds)) = _
      rw [hb, except_bind_ok,
        ih cats' (k + 1) (by simpa using hlen) ?_
          (fun cs2 h2 => hnd cs2 (List.mem_cons_of_mem _ h2))
          (fun nm2 h2 => hkeys nm2 (List.mem_cons_of_mem _ h2)),
        except_bind_ok]
      · rfl
      · intro j hj
        have h := huniq (j + 1) (by simp only [List.length_cons]; omega)
        have harith : k + (j + 1) = (k + 1) + j := by omega
        rw [harith] at h
        simpa using h

theorem sizes_map_enum (df : DataFrame) (names : List String) :
    ∀ (cats : List (List String)) (k : Nat),
      names.length = cats.length →
      (∀ j, j < names.length →
        uniquify (df_column df (k + j)) = (cats.getD j []).map Cell.str) →
      (List.enumFrom k names).map (fun p => (uniquify (df_column df p.1)).length) =
        cats.map List.length := by
  induction names with
  | nil =>
    intro cats k hlen _
    cases cats with
    | nil => rfl
    | cons _ _ => simp at hlen
  | cons nm rest ih =>
    intro cats k hlen huniq
    cases cats with
    | nil => simp at hlen
    | cons cs cats' =>
      show (uniquify (df_column df k)).length :: _ = cs.length :: cats'.map List.length
      have h0 := huniq 0 (by simp)
      rw [show k + 0 = k from rfl] at h0
      rw [show ((cs :: cats').getD 0 []) = cs from rfl] at h0
      rw [h0, List.length_map]
      congr 1
      refine ih cats' (k + 1) (by simpa using hlen) ?_
      intro j hj
      have h := huniq (j + 1) (by simp only [List.length_cons]; omega)
      have harith : k + (j + 1) = (k + 1) + j := by omega
      rw [harith] at h
      simpa using h

theorem enumFrom_fst_ge {α : Type} (l : List α) :
    ∀ n, ∀ p ∈ List.enumFrom n l, n ≤ p.1 := by
  induction l with
  | nil => intro n p hp; exact absurd hp (by simp)
  | cons a t ih =>
    intro n p hp
    rcases List.mem_cons.mp hp with h | h
    · rw [h]
    · exact Nat.le_of_succ_le (ih (n + 1) p h)

theorem enumFrom_fst_pairwise {α : Type} (l : List α) :
    ∀ n, (List.enumFrom n l).Pairwise (fun a b => a.1 ≤ b.1) := by
  induction l with
  | nil => intro n; simp
  | cons a t ih =>
    intro n
    refine List.pairwise_cons.mpr ⟨?_, ih (n + 1)⟩
    intro p hp
    exact Nat.le_of_succ_le (enumFrom_fst_ge t (n + 1) p hp)

theorem get_dim_index_mk_desc (nm : String) (cs : List String) :
    get_dim_index (mk_desc nm cs) = .ok (cs.enum.map (fun p => (p.2, p.1))) := by
  show Except.ok (sort_by (fun r => r.2)
    (index_frame (.imap (cs.enum.map (fun p => (p.2, p.1)))))) = _
  have hsorted : (cs.enum.map (fun p => (p.2, p.1))).Pairwise
      (fun a b => (fun r : String × Nat => r.2) a ≤ (fun r : String × Nat => r.2) b) :=
    List.Pairwise.map _ (fun a b h => h) (enumFrom_fst_pairwise cs 0)
  rw [show index_frame (.imap (cs.enum.map (fun p => (p.2, p.1)))) =
    cs.enum.map (fun p => (p.2, p.1)) from rfl]
  rw [sort_by_of_sorted _ _ hsorted]

theorem dim_assoc_find (names : List String) :
    ∀ (cats : List (List String)), names.Nodup → names.length = cats.length →
      ∀ nm cs, (nm, cs) ∈ names.zip cats →
        ((names.zip cats).map (fun p => (p.1, mk_desc p.1 p.2))).find?
          (fun q => q.1 = nm) = some (nm, mk_desc nm cs) := by
  induction names with
  | nil => intro cats _ _ nm cs hmem; exact absurd hmem (by simp)
  | cons a t ih =>
    intro cats hnd hlen nm cs hmem
    cases cats with
    | nil => simp at hlen
    | cons c cats' =>
      rcases List.mem_cons.mp hmem with h | h
      · have ha : a = nm := congrArg Prod.fst h.symm
        have hc : c = cs := congrArg Prod.snd h.symm
        subst ha
        subst hc
        show List.find? _ ((a, mk_desc a c) :: _) = _
        rw [List.find?_cons_of_pos _ (by simp)]
      · have hnm : nm ∈ t := (List.of_mem_zip h).1
        have hane : a ≠ nm := by
          intro hc
          exact (List.nodup_cons.mp hnd).1 (hc ▸ hnm)
        show List.find? _ ((a, mk_desc a c) :: _) = _
        rw [List.find?_cons_of_neg _ (by simpa using hane)]
        exact ih cats' (List.nodup_cons.mp hnd).2 (by simpa using hlen) nm cs h

theorem sort_enum_swap (cs : List String) :
    sort_by (fun r => r.2) (cs.enum.map (fun p => (p.2, p.1))) =
      cs.enum.map (fun p => (p.2, p.1)) := by
  refine sort_by_of_sorted _ _ ?_
  exact List.Pairwise.map _ (fun a b h => h) (enumFrom_fst_pairwise cs 0)

theorem dims_loop_assoc (doc : Document) :
    ∀ (sub : List (String × List String)),
      (∀ p ∈ sub, doc.dimension.find? (fun q => q.1 = p.1) =
        some (p.1, mk_desc p.1 p.2)) →
      dims_loop doc .id (sub.map Prod.fst) = .ok (sub.map Prod.snd, sub.map Prod.fst) := by
  intro sub
  induction sub with
  | nil => intro _; rfl
  | cons p rest ih =>
    intro hfind
    obtain ⟨nm, cs⟩ := p
    have hlk : lookup_dim doc nm = .ok (mk_desc nm cs) := by
      unfold lookup_dim
      rw [hfind (nm, cs) (List.mem_cons_self _ _)]
    simp only [List.map_cons]
    have hstep : dims_loop doc .id (nm :: rest.map Prod.fst) = (do
        let rest2 ← dims_loop doc .id (rest.map Prod.fst)
        Except.ok ((sort_by (fun r => r.2)
            (cs.enum.map (fun p => (p.2, p.1)))).map (fun r => r.1) :: rest2.1,
          nm :: rest2.2)) := by
      conv_lhs => unfold dims_loop
      rw [hlk]
      rfl
    rw [hstep, sort_enum_swap cs, enum_swap_map_fst cs,
      ih (fun q hq => hfind q (List.mem_cons_of_mem _ hq))]
    rfl

/-- The document that `to_json_stat(T, value, version='2.0')` builds for a
table whose category columns are `names` (with per-column first-seen
categories `cats`) and whose value column is `vvals`. -/
theorem encode_rowmajor (names : List String) (cats : List (List String))
    (vvals : List Cell) (value : String) (df : DataFrame)
    (hcols : df.colNames = names ++ [value])
    (hnodup : names.Nodup)
    (hnosub : ∀ nm ∈ names, str_contains value nm = false)
    (hclen : names.length = cats.length)
    (hcatnd : ∀ cs ∈ cats, cs.Nodup)
    (hkeys : ∀ nm ∈ names, json_dim_key nm = nm)
    (huniq : ∀ j, j < names.length →
      uniquify (df_column df j) = (cats.getD j []).map Cell.str)
    (hvcol : df_column df names.length = vvals) :
    to_json_stat_single df value "2.0" = .ok
      { version := some "2.0", id := some names, size := some (cats.map List.length),
        dim_id := none, dim_size := none,
        dimension := (names.zip cats).map (fun p => (p.1, mk_desc p.1 p.2)),
        value := .dense vvals } := by
  have hvalnotin : value ∉ names := by
    intro h
    have := hnosub value h
    rw [str_contains_refl] at this
    exact absurd this (by simp)
  have hcatcols : category_columns df value = List.enumFrom 0 names := by
    unfold category_columns
    rw [hcols]
    exact filter_not_contains_enumFrom names value hnosub 0
  have hdimnames : (List.enumFrom 0 names).map (fun p => p.2) = names :=
    enumFrom_map_snd names 0
  have hsizes : (List.enumFrom 0 names).map
      (fun p => (uniquify (df_column df p.1)).length) = cats.map List.length := by
    refine sizes_map_enum df names cats 0 hclen ?_
    intro j hj
    rw [Nat.zero_add]
    exact huniq j hj
  have hvc : value_col_index df value = .ok names.length := by
    unfold value_col_index
    show (match (List.enumFrom 0 df.colNames).filter (fun p => p.2 = value) with
      | [] => Except.error "KeyError: value"
      | [vc] => Except.ok vc.1
      | _ => Except.error "ValueError: The truth value of a DataFrame is ambiguous") = _
    rw [hcols, filter_value_col_enumFrom names value hvalnotin 0]
    rw [show (0 + names.length) = names.length from by omega]
  have hbuild : build_all df (List.enumFrom 0 names) =
      .ok ((names.zip cats).map (fun p => (p.1, mk_desc p.1 p.2))) := by
    refine build_all_enum df names cats 0 hclen ?_ hcatnd hkeys
    intro j hj
    rw [Nat.zero_add]
    exact huniq j hj
  have hzipfst : ((names.zip cats).map
      (fun p => (p.1, mk_desc p.1 p.2))).map Prod.fst = names := by
    rw [List.map_map]
    rw [show (Prod.fst ∘ fun (p : String × List String) =>
      (p.1, mk_desc p.1 p.2)) = fun (p : String × List String) => p.1 from rfl]
    exact List.map_fst_zip names cats (by omega)
  have hzipnd : (((names.zip cats).map
      (fun p => (p.1, mk_desc p.1 p.2))).map Prod.fst).Nodup := by
    rw [hzipfst]
    exact hnodup
  have hod : od_update_all ((names.zip cats).map (fun p => (p.1, mk_desc p.1 p.2)))
      (od_update_all ((names.zip cats).map (fun p => (p.1, mk_desc p.1 p.2))) []) =
      (names.zip cats).map (fun p => (p.1, mk_desc p.1 p.2)) := by
    have h1 : od_update_all ((names.zip cats).map (fun p => (p.1, mk_desc p.1 p.2))) [] =
        (names.zip cats).map (fun p => (p.1, mk_desc p.1 p.2)) := by
      show ((names.zip cats).map (fun p => (p.1, mk_desc p.1 p.2))).foldl
        (fun a p => od_update a p.1 p.2) [] = _
      have := od_foldl_append ((names.zip cats).map (fun p => (p.1, mk_desc p.1 p.2)))
        [] hzipnd (by simp)
      simpa using this
    rw [h1]
    show ((names.zip cats).map (fun p => (p.1, mk_desc p.1 p.2))).foldl
      (fun a p => od_update a p.1 p.2)
      ((names.zip cats).map (fun p => (p.1, mk_desc p.1 p.2))) = _
    exact od_update_all_self _ hzipnd
  unfold to_json_stat_single
  unfold_let
  rw [hcatcols, hdimnames, uniquify_of_nodup names hnodup,
    if_neg (fun h => h rfl), hsizes, hbuild, except_bind_ok, hvc, except_bind_ok,
    hvcol, map_null_id, hod, if_pos (show float_ge_two "2.0" = true from rfl)]

/-- Decoding the document built by `encode_rowmajor` with `naming='id'`
reproduces the column names and the row-major rows exactly. -/
theorem decode_rowmajor (names : List String) (cats : List (List String))
    (vvals : List Cell) (value : String)
    (hnodup : names.Nodup)
    (hclen : names.length = cats.length)
    (hnne : names ≠ [])
    (hcatne : ∀ cs ∈ cats, cs ≠ [])
    (hlen : vvals.length = (cart_prod cats).length) :
    generate_df
      { version := some "2.0", id := some names, size := some (cats.map List.length),
        dim_id := none, dim_size := none,
        dimension := (names.zip cats).map (fun p => (p.1, mk_desc p.1 p.2)),
        value := .dense vvals } .id value =
      .ok { colNames := names ++ [value],
            rows := zip_append ((cart_prod cats).map (fun r => r.map Cell.str)) vvals } := by
  have hcne : cats ≠ [] := by
    intro h
    rw [h] at hclen
    simp at hclen
    exact hnne hclen
  have hprodpos : 0 < (cart_prod cats).length := by
    rw [cart_prod_length]
    refine List.prod_pos ?_
    intro a ha
    obtain ⟨cs, hcs, rfl⟩ := List.mem_map.mp ha
    exact List.length_pos.mpr (hcatne cs hcs)
  have hgv : get_values
      { version := some "2.0", id := some names, size := some (cats.map List.length),
        dim_id := none, dim_size := none,
        dimension := (names.zip cats).map (fun p => (p.1, mk_desc p.1 p.2)),
        value := .dense vvals } = .ok vvals := by
    have hie : vvals.isEmpty = false := by
      cases hv : vvals with
      | nil =>
        rw [hv] at hlen
        simp at hlen
        omega
      | cons _ _ => rfl
    show (if vvals.isEmpty = true then _ else Except.ok vvals) = _
    rw [hie, if_neg (by simp)]
  have hfind : ∀ p ∈ names.zip cats,
      (((names.zip cats).map (fun q => (q.1, mk_desc q.1 q.2))) : List (String × DimDesc)).find?
        (fun q => q.1 = p.1) = some (p.1, mk_desc p.1 p.2) := by
    intro p hp
    obtain ⟨nm, cs⟩ := p
    exact dim_assoc_find names cats hnodup hclen nm cs hp
  have hdl := dims_loop_assoc
    { version := some "2.0", id := some names, size := some (cats.map List.length),
      dim_id := none, dim_size := none,
      dimension := (names.zip cats).map (fun p => (p.1, mk_desc p.1 p.2)),
      value := .dense vvals } (names.zip cats) (fun p hp => hfind p hp)
  rw [List.map_fst_zip names cats (by omega),
    List.map_snd_zip names cats (by omega)] at hdl
  have hgd : get_dimensions
      { version := some "2.0", id := some names, size := some (cats.map List.length),
        dim_id := none, dim_size := none,
        dimension := (names.zip cats).map (fun p => (p.1, mk_desc p.1 p.2)),
        value := .dense vvals } .id = .ok (cats, names) := by
    show dims_loop _ .id names = _
    exact hdl
  unfold generate_df
  rw [hgd, except_bind_ok, hgv, except_bind_ok]
  have hce : (((cats, names) : List (List String) × List String).1).isEmpty = false := by
    show cats.isEmpty = false
    cases hc : cats with
    | nil => exact absurd hc hcne
    | cons _ _ => rfl
  rw [hce, if_neg (by simp)]
  have hgdr : get_df_row (((cats, names) : List (List String) × List String).1) =
      cart_prod cats := by
    show get_df_row cats = _
    exact get_df_row_eq_cart_prod cats hcne
  rw [hgdr]
  rw [attach_values_eq_zip_append ((cart_prod cats).map (fun r => r.map Cell.str))
    vvals 0 (by rw [List.length_map]; omega)]
  rw [List.drop_zero, except_bind_ok]
  have hzlen : (zip_append ((cart_prod cats).map (fun r => r.map Cell.str)) vvals).length =
      (cart_prod cats).length := by
    rw [zip_append_length _ vvals (by rw [List.length_map]; omega), List.length_map]
  have hzne : (zip_append ((cart_prod cats).map (fun r => r.map Cell.str)) vvals).isEmpty =
      false := by
    cases hz : zip_append ((cart_prod cats).map (fun r => r.map Cell.str)) vvals with
    | nil =>
      rw [hz] at hzlen
      simp at hzlen
      omega
    | cons _ _ => rfl
  rw [hzne, if_neg (by simp)]
  rw [if_neg (show ¬ ((zip_append ((cart_prod cats).map (fun r => r.map Cell.str))
    vvals).length ≠ vvals.length) from by rw [hzlen]; omega)]

/-- An integer-parseable, non-canonical column name breaks the round trip
even for a row-major table: line 480 keys the dimension by
`to_int('05') = 5`, the JSON round trip renders that key as `5`, but the
`id` list keeps `05`, so the decoder's `js_dict['dimension']['05']` lookup
raises `KeyError`.  This is the second failure mode that the amended
round-trip claim excludes via its `json_dim_key`-fixed-point hypothesis. -/
theorem to_json_stat_numeric_name_key_mismatch :
    json_dim_key "05" = "5" ∧
    ∃ doc, to_json_stat_single df_numeric_name "value" "2.0" = .ok doc ∧
      doc.id = some ["05"] ∧ (doc.dimension.map Prod.fst) = ["5"] ∧
      ∃ e, generate_df doc .id "value" = .error e :=
  ⟨rfl, _, rfl, rfl, rfl, _, rfl⟩

/-- **C1 counterexample**.  `df_scrambled` is a dense, rectangular, null-free
2x2 table with a unique composite key, but its rows are not in row-major
order with respect to the first-seen category order.  Encoding with
version 2.0 and decoding with `naming='id'` succeeds yet pairs the values
with the wrong category combinations: the decoded rows are not even a
permutation of the original rows (same column names, so no column name
normalization is involved). -/
theorem to_json_stat_roundtrip_counterexample :
    ∃ doc df2, to_json_stat_single df_scrambled "value" "2.0" = .ok doc ∧
      generate_df doc .id "value" = .ok df2 ∧
      df2.colNames = df_scrambled.colNames ∧
      ¬ df2.rows.Perm df_scrambled.rows := by
  refine ⟨_, _, rfl, rfl, rfl, ?_⟩
  decide

/-- **C1 amended**.  For a dense, rectangular table with no null values
whose category columns form a unique composite key, *whose rows are in
row-major (odometer) order with respect to the per-column first-seen
category order* and, additionally, whose category cells are strings, whose
value column is last, and whose category column names are ASCII, are not
substrings of the value key, and are left unchanged by the
`to_int`/JSON-key normalization (`json_dim_key nm = nm`, excluding
integer-parseable non-canonical names such as `05`): decoding
(`naming='id'`) the version-2.0 encoding reproduces the table exactly. -/
theorem to_json_stat_roundtrip (names : List String) (cats : List (List String))
    (vvals : List Cell) (value : String) (df : DataFrame)
    (hcols : df.colNames = names ++ [value])
    (hrows : df.rows = zip_append ((cart_prod cats).map (fun r => r.map Cell.str)) vvals)
    (hlen : vvals.length = (cart_prod cats).length)
    (hclen : names.length = cats.length)
    (hnne : names ≠ [])
    (hnodup : names.Nodup)
    (hnosub : ∀ nm ∈ names, str_contains value nm = false)
    (hcatne : ∀ cs ∈ cats, cs ≠ [])
    (hcatnd : ∀ cs ∈ cats, cs.Nodup)
    (hkeys : ∀ nm ∈ names, json_dim_key nm = nm)
    (_hascii : ∀ nm ∈ names, nm.toList.all (fun c => c.toNat < 128))
    (huniq : ∀ j, j < names.length →
      uniquify (df_column df j) = (cats.getD j []).map Cell.str)
    (_hnonull : Cell.null ∉ vvals) :
    ∃ doc, to_json_stat_single df value "2.0" = .ok doc ∧
      generate_df doc .id value = .ok df := by
  have hvcol : df_column df names.length = vvals := by
    unfold df_column
    rw [hrows]
    refine zip_append_column _ names.length vvals ?_ ?_
    · intro r hr
      obtain ⟨r0, hr0, rfl⟩ := List.mem_map.mp hr
      rw [List.length_map]
      exact (cart_prod_row_length cats r0 hr0).trans hclen.symm
    · rw [List.length_map]
      omega
  refine ⟨_, encode_rowmajor names cats vvals value df hcols hnodup hnosub hclen
    hcatnd hkeys huniq hvcol, ?_⟩
  rw [decode_rowmajor names cats vvals value hnodup hclen hnne hcatne hlen,
    ← hcols, ← hrows]

/-- **C1 amended witness**: the 2x2 row-major table round-trips through a
version-2.0 document back to itself. -/
theorem to_json_stat_roundtrip_witness :
    ∃ doc, to_json_stat_single df_rowmajor "value" "2.0" = .ok doc ∧
      generate_df doc .id "value" = .ok df_rowmajor :=
  to_json_stat_roundtrip ["A", "B"] [["a1", "a2"], ["b1", "b2"]]
    [.int 1, .int 2, .int 3, .int 4] "value" df_rowmajor
    rfl rfl (by decide) (by decide) (by decide) (by decide) (by decide)
    (by decide) (by decide) (by decide) (by decide) (by decide) (by decide)

end Pyjstat
